import Mathlib

/-!
# sysprobe: the TCP port scanner of package `net` (`src/net/ports.go`)

A shallow embedding of `PortScan.Scan`, `PortScan.New`, `HostScan.New` and
`ScanResults.Create`, followed by the properties established about them.

Modelling conventions

* A Go slice is `Slice α = Option (List α)`: `none` is the `nil` slice, `some l`
  a non-nil slice with elements `l`.  `append` never returns `nil`.
* Go `int` and `time.Duration` are `Int` (a duration counts nanoseconds).  No
  arithmetic in the scanner can overflow 64 bits for the values it builds itself
  (`time.Millisecond * 500`).
* `net.DialTimeout` is a parameter `dial : Dial`, a function of the protocol, the
  address and the timeout.  Every call is recorded in `World.trace`, as is the
  deferred `conn.Close()`.
* A `sync.WaitGroup` is its counter, an `Int`.  `Add` panics when the counter
  becomes negative, `Done` is `Add(-1)`, `Wait` returns only at zero.  The real
  counter has 32 bits: the model agrees with it as long as the counter stays
  within `0 .. 2^31 - 1` and the argument of `Add` within `-2^31 .. 2^31 - 1`.
  Outside that range `Add` wraps around (`Add(2^31)` panics, `Add(2^32)` adds
  nothing), so the universally quantified statements below that say a call
  returns or panics carry the bound `scanScope < 2147483648`, and
  `-2147483648 ≤ scanScope` where `scanScope` is negative.  The model's `Wait`
  returns when every goroutine has finished; that is the moment the real
  counter reaches zero when it starts at zero and `Add` took the number of
  goroutines, which the same bounds ensure.
* The goroutines started by `HostScan.New` run under an explicit schedule, a list
  of goroutine indices, each entry letting that goroutine perform its next
  shared-memory action.  The statement `h.Ports = append(h.Ports, p.Port)` is a
  read of `h.Ports` followed by a write, since nothing in the source makes it
  atomic.  Once the schedule is used up the remaining goroutines run to
  completion in launch order, which is what `wg.Wait()` waits for.  Each read
  and each write moves a whole slice value; an execution in which a goroutine
  sees a slice header half written by another is not among the interleavings
  of the model, which therefore cover some, not all, outcomes of the race.
-/

namespace Sysprobe

/-! ## Data model -/

/-- Go slice: `none` is `nil`, `some l` is a non-nil slice holding `l`. -/
abbrev Slice (α : Type) := Option (List α)

/-- Elements of a slice (`nil` has none). -/
def Slice.toList {α : Type} (s : Slice α) : List α := s.getD []

/-- Go `append(s, x)`: the result is never `nil`. -/
def Slice.append {α : Type} (s : Slice α) (x : α) : Slice α := some (s.toList ++ [x])

/-- Repeated `append`. -/
def Slice.appendAll {α : Type} (s : Slice α) (l : List α) : Slice α := l.foldl Slice.append s

/-- Go `s != nil`. -/
def Slice.notNil {α : Type} (s : Slice α) : Bool := s.isSome

/-- Go `type PortScan struct { Port int; Status string }`. -/
structure PortScan where
  Port : Int
  Status : String
deriving DecidableEq

/-- Go `type HostScan struct { Target, Protocol string; Ports []int }`. -/
structure HostScan where
  Target : String
  Protocol : String
  Ports : Slice Int
deriving DecidableEq

/-- Go `type ScanResults struct { Results []HostScan }`. -/
structure ScanResults where
  Results : Slice HostScan
deriving DecidableEq

/-! ## Environment: time, network, wait groups -/

/-- Go `time.Millisecond`, in nanoseconds. -/
def Millisecond : Int := 1000000

/-- Go `time.Second`, in nanoseconds. -/
def Second : Int := 1000 * Millisecond

/-- Go `strconv.Itoa`: decimal rendering of an `int`. -/
def Itoa (i : Int) : String :=
  match i with
  | Int.ofNat n => Nat.repr n
  | Int.negSucc n => "-" ++ Nat.repr (n + 1)

/-- An established connection, identified by what was dialled. -/
structure Conn where
  proto : String
  address : String
deriving DecidableEq

/-- The ways in which `net.DialTimeout` can fail. -/
inductive DialError where
  | refused
  | unreachable
  | timedOut
  | other
deriving DecidableEq

/-- The transport: `net.DialTimeout(proto, address, timeout)`. -/
abbrev Dial := String → String → Int → Except DialError Conn

/-- Whether a dial result is a connection. -/
def dialOk (r : Except DialError Conn) : Bool :=
  match r with
  | .ok _ => true
  | .error _ => false

/-- Network actions performed by the scanner. -/
inductive Event where
  | dial (proto : String) (address : String) (timeout : Int)
  | close (conn : Conn)
deriving DecidableEq

/-- Whether an event is a dial attempt. -/
def Event.isDial (e : Event) : Bool :=
  match e with
  | .dial _ _ _ => true
  | .close _ => false

/-- Process-wide state: the package variable `wg` and the network actions so far. -/
structure World where
  wg : Int
  trace : List Event
deriving DecidableEq

/-- How a call ends. -/
inductive Exit where
  | returned
  | panicked (msg : String)
  | deadlocked
deriving DecidableEq

/-- The message of the panic raised by `WaitGroup.Add` on a negative counter. -/
def negativeCounter : String := "sync: negative WaitGroup counter"

/-! ## `PortScan.Scan` -/

/-- Go `func (p *PortScan) Scan(proto, addr string, port int) *PortScan`.
Returns the updated `*p` and the world after the dial (and deferred close). -/
def PortScan.Scan (dial : Dial) (p : PortScan) (proto addr : String) (port : Int)
    (w : World) : PortScan × World :=
  let address := addr ++ ":" ++ Itoa port
  let timeout : Int := Millisecond * 500
  match dial proto address timeout with
  | .error _ =>
    ({ p with Status := "Closed" },
     { w with trace := w.trace ++ [Event.dial proto address timeout] })
  | .ok conn =>
    ({ p with Status := "Open" },
     { w with trace := w.trace ++ [Event.dial proto address timeout, Event.close conn] })

/-- The address `PortScan.Scan` dials for a host and a port. -/
def dialAddress (addr : String) (port : Int) : String := addr ++ ":" ++ Itoa port

/-- Whether the transport accepts a connection to `port` of `addr`, asked the way
`PortScan.Scan` asks. -/
def isOpen (dial : Dial) (proto addr : String) (port : Int) : Bool :=
  dialOk (dial proto (dialAddress addr port) (Millisecond * 500))

/-! ## `PortScan.New` -/

/-- Outcome of a direct call of `PortScan.New`. -/
structure PortNewResult where
  p : PortScan
  h : HostScan
  w : World
  exit : Exit
deriving DecidableEq

/-- Go `func (p *PortScan) New(h *HostScan, port int) *PortScan`, called on its
own (no other goroutine touching `h`).  The deferred `wg.Done()` runs last. -/
def PortScan.New (dial : Dial) (p : PortScan) (h : HostScan) (port : Int) (w : World) :
    PortNewResult :=
  let (p1, w1) := p.Scan dial h.Protocol h.Target port w
  let h1 : HostScan :=
    if p1.Status ≠ "Closed" then { h with Ports := Slice.append h.Ports p1.Port } else h
  let c := w1.wg - 1
  { p := p1, h := h1, w := { w1 with wg := c },
    exit := if c < 0 then Exit.panicked negativeCounter else Exit.returned }

/-! ## Goroutines running `PortScan.New` -/

/-- Where a goroutine running `PortScan.New` stands: before the call of `Scan`,
after it, between the read of `h.Ports` and the write of the appended slice, or
past its deferred `wg.Done()`. -/
inductive Pc where
  | entry
  | scanned
  | loaded (tmp : Slice Int)
  | exited
deriving DecidableEq

/-- A goroutine `go scan.New(h, port)`: its receiver `*scan`, its argument and
its position. -/
structure Goroutine where
  p : PortScan
  port : Int
  pc : Pc
deriving DecidableEq

/-- What the goroutines of one `HostScan.New` share: `*h`, the world, and whether
a panic has brought the process down. -/
structure Shared where
  h : HostScan
  w : World
  crashed : Bool
deriving DecidableEq

/-- The deferred `wg.Done()` of a goroutine. -/
def wgDone (sh : Shared) : Shared :=
  let c := sh.w.wg - 1
  { sh with w := { sh.w with wg := c }, crashed := decide (c < 0) }

/-- One action of a goroutine running `PortScan.New`. -/
def Goroutine.step (dial : Dial) (g : Goroutine) (sh : Shared) : Goroutine × Shared :=
  if sh.crashed then (g, sh) else
  match g.pc with
  | .entry =>
    -- p.Scan(h.Protocol, h.Target, port)
    let (p1, w1) := g.p.Scan dial sh.h.Protocol sh.h.Target g.port sh.w
    ({ g with p := p1, pc := .scanned }, { sh with w := w1 })
  | .scanned =>
    -- if p.Status != "Closed": evaluate the operand h.Ports of append
    if g.p.Status ≠ "Closed" then ({ g with pc := .loaded sh.h.Ports }, sh)
    else ({ g with pc := .exited }, wgDone sh)
  | .loaded tmp =>
    -- h.Ports = append(<the slice read>, p.Port), then the deferred wg.Done()
    ({ g with pc := .exited },
     wgDone { sh with h := { sh.h with Ports := Slice.append tmp g.p.Port } })
  | .exited => (g, sh)

/-- Let goroutine number `i` (counted from 0 in launch order) perform one action. -/
def stepAt (dial : Dial) (i : Nat) (gs : List Goroutine) (sh : Shared) :
    List Goroutine × Shared :=
  match gs[i]? with
  | none => (gs, sh)
  | some g =>
    let (g1, sh1) := g.step dial sh
    (gs.set i g1, sh1)

/-- Run a schedule. -/
def runSched (dial : Dial) : List Nat → List Goroutine → Shared → List Goroutine × Shared
  | [], gs, sh => (gs, sh)
  | i :: rest, gs, sh =>
    let (gs1, sh1) := stepAt dial i gs sh
    runSched dial rest gs1 sh1

/-- Run one goroutine to its end (it has at most three actions left). -/
def Goroutine.finish (dial : Dial) (g : Goroutine) (sh : Shared) : Shared :=
  let (g1, sh1) := g.step dial sh
  let (g2, sh2) := g1.step dial sh1
  (g2.step dial sh2).2

/-- Run every goroutine to its end, in launch order. -/
def drain (dial : Dial) : List Goroutine → Shared → Shared
  | [], sh => sh
  | g :: gs, sh => drain dial gs (g.finish dial sh)

/-! ## `HostScan.New` -/

/-- The values of `i` in `for i := 1; i <= scanScope; i++`. -/
def loopIndices (scanScope : Int) : List Int :=
  (List.range scanScope.toNat).map (fun (k : Nat) => (k : Int) + 1)

/-- The goroutine `scan := &PortScan{Port: i}; go scan.New(h, i)`. -/
def spawn (i : Int) : Goroutine :=
  { p := { Port := i, Status := "" }, port := i, pc := Pc.entry }

/-- Outcome of `HostScan.New`. -/
structure HostNewResult where
  h : HostScan
  s : ScanResults
  w : World
  exit : Exit
deriving DecidableEq

/-- Go `func (h *HostScan) New(s *ScanResults, scanScope int) *HostScan`, with
the interleaving of its goroutines given by `sched`.  The wait group counter is
an unbounded `Int` here; the definition follows the source for a counter that
starts within `0 .. 2^31 - 1` and `-2^31 ≤ scanScope < 2^31`. -/
def HostScan.New (dial : Dial) (sched : List Nat) (h : HostScan) (s : ScanResults)
    (scanScope : Int) (w : World) : HostNewResult :=
  -- wg.Add(scanScope)
  let c := w.wg + scanScope
  if c < 0 then
    { h := h, s := s, w := { w with wg := c }, exit := Exit.panicked negativeCounter }
  else
    -- for i := 1; i <= scanScope; i++ { scan := &PortScan{Port: i}; go scan.New(h, i) }
    let gs := (loopIndices scanScope).map spawn
    let (gs1, sh1) := runSched dial sched gs { h := h, w := { w with wg := c }, crashed := false }
    -- wg.Wait()
    let sh2 := drain dial gs1 sh1
    if sh2.crashed then
      { h := sh2.h, s := s, w := sh2.w, exit := Exit.panicked negativeCounter }
    else if sh2.w.wg ≠ 0 then
      { h := sh2.h, s := s, w := sh2.w, exit := Exit.deadlocked }
    else
      -- if h.Ports != nil { s.Results = append(s.Results, *h) }
      let s1 : ScanResults :=
        if sh2.h.Ports.notNil then { Results := Slice.append s.Results sh2.h } else s
      { h := sh2.h, s := s1, w := sh2.w, exit := Exit.returned }

/-- The shared state when `wg.Wait()` returns: the schedule has run and the
remaining goroutines have finished. -/
def scanShared (dial : Dial) (sched : List Nat) (h : HostScan) (scanScope : Int) (w : World) :
    Shared :=
  drain dial
    (runSched dial sched ((loopIndices scanScope).map spawn)
      { h := h, w := { w with wg := w.wg + scanScope }, crashed := false }).1
    (runSched dial sched ((loopIndices scanScope).map spawn)
      { h := h, w := { w with wg := w.wg + scanScope }, crashed := false }).2

/-- A goroutine whose port is closed: it has not passed `Scan`, or it has with
Status "Closed", or it is over. -/
def ClosedGoroutine (dial : Dial) (h : HostScan) (g : Goroutine) : Prop :=
  isOpen dial h.Protocol h.Target g.port = false
  ∧ (g.pc = Pc.entry ∨ (g.pc = Pc.scanned ∧ g.p.Status = "Closed") ∨ g.pc = Pc.exited)

/-- Number of actions a goroutine may still perform. -/
def Pc.rank (pc : Pc) : Nat :=
  match pc with
  | Pc.entry => 3
  | Pc.scanned => 2
  | Pc.loaded _ => 1
  | Pc.exited => 0

/-- Whether a goroutine has yet to reach its deferred `wg.Done()`. -/
def Goroutine.live (g : Goroutine) : Bool :=
  match g.pc with
  | Pc.exited => false
  | _ => true

/-- Number of goroutines that have not finished. -/
def pending (gs : List Goroutine) : Nat := gs.countP Goroutine.live

/-- Three actions of one goroutine in a row, keeping the goroutine. -/
def Goroutine.run3 (dial : Dial) (g : Goroutine) (sh : Shared) : Goroutine × Shared :=
  let r1 := g.step dial sh
  let r2 := r1.1.step dial r1.2
  r2.1.step dial r2.2

/-- The schedule that lets the listed goroutines run one at a time, each from
start to end, in the listed order. -/
def serial : List Nat → List Nat
  | [] => []
  | i :: rest => i :: i :: i :: serial rest

/-- A port that may legitimately stand in `h.Ports` after a scan of `h`: it was
there before, or it is an open port of the scanned range. -/
def Recorded (dial : Dial) (h : HostScan) (scanScope : Int) (x : Int) : Prop :=
  x ∈ h.Ports.toList
  ∨ (x ∈ loopIndices scanScope ∧ isOpen dial h.Protocol h.Target x = true)

/-- What holds of every goroutine of a scan of `h`, at every moment: it probes
the port its receiver carries, a port of the range; past `Scan` with a Status
other than "Closed" its port is open; and the slice it read held only ports
that may stand in `h.Ports`. -/
def SoundGoroutine (dial : Dial) (h : HostScan) (scanScope : Int) (g : Goroutine) : Prop :=
  g.p.Port = g.port ∧ g.port ∈ loopIndices scanScope
  ∧ (g.pc = Pc.scanned → g.p.Status ≠ "Closed" →
      isOpen dial h.Protocol h.Target g.port = true)
  ∧ (∀ tmp, g.pc = Pc.loaded tmp →
      isOpen dial h.Protocol h.Target g.port = true
      ∧ ∀ x ∈ Slice.toList tmp, Recorded dial h scanScope x)

/-- What a goroutine has yet to append: its port, when it is still to run and
the port is open. -/
def owed (dial : Dial) (h : HostScan) (g : Goroutine) : List Int :=
  if g.live = true ∧ isOpen dial h.Protocol h.Target g.port = true then [g.port] else []

/-- What the goroutines have yet to append, in launch order. -/
def todo (dial : Dial) (h : HostScan) : List Goroutine → List Int
  | [] => []
  | g :: gs => owed dial h g ++ todo dial h gs

/-- A goroutine that has not started, or is over. -/
def FreshOrOver (g : Goroutine) : Prop := g = spawn g.port ∨ g.pc = Pc.exited

/-- The state between two goroutines of a scan of `h` whose goroutines run one
at a time: every goroutine is fresh or over, no panic arose, the wait group
counts the fresh ones, and `h.Ports` together with what is still owed is a
rearrangement of `target`. -/
def SerialState (dial : Dial) (h : HostScan) (target : List Int) (gs : List Goroutine)
    (sh : Shared) : Prop :=
  (∀ g ∈ gs, FreshOrOver g)
  ∧ sh.crashed = false
  ∧ sh.w.wg = pending gs
  ∧ sh.h.Target = h.Target ∧ sh.h.Protocol = h.Protocol
  ∧ List.Perm (sh.h.Ports.toList ++ todo dial h gs) target

/-- The dial `PortScan.Scan` makes for a port of `h`. -/
def probeOf (h : HostScan) (port : Int) : Event :=
  Event.dial h.Protocol (h.Target ++ ":" ++ Itoa port) (Millisecond * 500)

/-! ## `ScanResults.Create` -/

/-- The loop `for _, e := range hosts` of `Create`; `scheds` gives the schedule
of each host scan in turn. -/
def createLoop (dial : Dial) (scanScope : Int) :
    List String → List (List Nat) → ScanResults → World → ScanResults × World × Exit
  | [], _, s, w => (s, w, Exit.returned)
  | e :: rest, scheds, s, w =>
    let r := HostScan.New dial (scheds.headD [])
      { Target := e, Protocol := "tcp", Ports := none } s scanScope w
    match r.exit with
    | Exit.returned => createLoop dial scanScope rest scheds.tail r.s r.w
    | x => (r.s, r.w, x)

/-- Outcome of `ScanResults.Create`. -/
structure CreateResult where
  s : ScanResults
  mwg : Int
  w : World
  exit : Exit
deriving DecidableEq

/-- Go `func (s *ScanResults) Create(mwg *sync.WaitGroup, hosts []string,
scanScope int) *ScanResults`; `mwg` is the counter of the caller's wait group
(distinct from the package variable `wg`).  The deferred `mwg.Done()` runs on
return and while a panic unwinds. -/
def ScanResults.Create (dial : Dial) (scheds : List (List Nat)) (s : ScanResults)
    (mwg : Int) (hosts : List String) (scanScope : Int) (w : World) : CreateResult :=
  let (s1, w1, x) := createLoop dial scanScope hosts scheds s w
  let m := mwg - 1
  match x with
  | Exit.deadlocked => { s := s1, mwg := mwg, w := w1, exit := Exit.deadlocked }
  | Exit.panicked msg =>
    { s := s1, mwg := m, w := w1,
      exit := Exit.panicked (if m < 0 then negativeCounter else msg) }
  | Exit.returned =>
    { s := s1, mwg := m, w := w1,
      exit := if m < 0 then Exit.panicked negativeCounter else Exit.returned }

/-- The open ports of a target in `1..scanScope`, in ascending order. -/
def openPorts (dial : Dial) (target : String) (scanScope : Int) : List Int :=
  (loopIndices scanScope).filter (isOpen dial "tcp" target)

/-- The record `r` reports target `e` over tcp with its open ports, in some
order. -/
def RecordOf (dial : Dial) (scanScope : Int) (r : HostScan) (e : String) : Prop :=
  r.Target = e ∧ r.Protocol = "tcp" ∧ List.Perm r.Ports.toList (openPorts dial e scanScope)

/-- Every schedule of the list lets the goroutines run one at a time. -/
def AllSerial (scheds : List (List Nat)) : Prop :=
  ∀ sc ∈ scheds, ∃ order, sc = serial order

/-! ## Sample transports and schedules -/

/-- A transport on which every dial is refused. -/
def allClosed : Dial := fun _ _ _ => Except.error DialError.refused

/-- A transport on which every dial succeeds. -/
def allOpen : Dial := fun proto address _ => Except.ok { proto := proto, address := address }

/-- A transport that accepts exactly the listed addresses over tcp. -/
def openAt (addresses : List String) : Dial := fun proto address _ =>
  if proto = "tcp" ∧ address ∈ addresses then Except.ok { proto := proto, address := address }
  else Except.error DialError.refused

/-- A transport that accepts exactly the addresses ending in an even digit. -/
def evenOpen : Dial := fun proto address _ =>
  if address.toList.getLast? ∈ [some '0', some '2', some '4', some '6', some '8'] then
    Except.ok { proto := proto, address := address }
  else Except.error DialError.refused

/-- A target that completes the handshake only `latency` nanoseconds after the
dial starts: the dial succeeds when the timeout allows that long. -/
def acceptsAfter (latency : Int) : Dial := fun proto address timeout =>
  if latency ≤ timeout then Except.ok { proto := proto, address := address }
  else Except.error DialError.timedOut

/-- The world before anything ran. -/
def World.init : World := { wg := 0, trace := [] }

/-- A host record as `Create` builds it. -/
def HostScan.fresh (target : String) : HostScan :=
  { Target := target, Protocol := "tcp", Ports := none }

/-- An empty report. -/
def ScanResults.empty : ScanResults := { Results := none }


/-! ## `PortScan.Scan` -/

/-- `Scan` when the dial fails. -/
theorem scan_of_error (dial : Dial) (p : PortScan) (proto addr : String) (port : Int)
    (w : World) (e : DialError)
    (hd : dial proto (addr ++ ":" ++ Itoa port) (Millisecond * 500) = Except.error e) :
    PortScan.Scan dial p proto addr port w
      = ({ Port := p.Port, Status := "Closed" },
         { wg := w.wg,
           trace := w.trace ++ [Event.dial proto (addr ++ ":" ++ Itoa port) (Millisecond * 500)] }) := by
  simp only [PortScan.Scan, hd]

/-- `Scan` when the dial succeeds. -/
theorem scan_of_ok (dial : Dial) (p : PortScan) (proto addr : String) (port : Int)
    (w : World) (c : Conn)
    (hd : dial proto (addr ++ ":" ++ Itoa port) (Millisecond * 500) = Except.ok c) :
    PortScan.Scan dial p proto addr port w
      = ({ Port := p.Port, Status := "Open" },
         { wg := w.wg,
           trace := w.trace ++ [Event.dial proto (addr ++ ":" ++ Itoa port) (Millisecond * 500),
             Event.close c] }) := by
  simp only [PortScan.Scan, hd]

/-- C1: `PortScan.Scan` classifies by its single dial.  Whatever the error, a
failed dial gives Status "Closed"; a successful dial gives Status "Open".  In
both cases the Port field is unchanged, the network actions added are exactly one
dial, to `addr:port` over `proto` (followed by the close of the connection when
there is one), the wait group is untouched, and the call returns a `PortScan`
with no error value. -/
theorem scan_classifies_by_single_dial (dial : Dial) (p : PortScan) (proto addr : String)
    (port : Int) (w : World) :
    (match dial proto (addr ++ ":" ++ Itoa port) (Millisecond * 500) with
      | .error _ => (PortScan.Scan dial p proto addr port w).1.Status = "Closed"
      | .ok _ => (PortScan.Scan dial p proto addr port w).1.Status = "Open")
    ∧ (PortScan.Scan dial p proto addr port w).1.Port = p.Port
    ∧ (∃ evs, (PortScan.Scan dial p proto addr port w).2.trace = w.trace ++ evs
        ∧ evs.filter Event.isDial
            = [Event.dial proto (addr ++ ":" ++ Itoa port) (Millisecond * 500)])
    ∧ (PortScan.Scan dial p proto addr port w).2.wg = w.wg := by
  cases hd : dial proto (addr ++ ":" ++ Itoa port) (Millisecond * 500) with
  | error e =>
    rw [scan_of_error dial p proto addr port w e hd]
    exact ⟨rfl, rfl, ⟨_, rfl, by simp [Event.isDial]⟩, rfl⟩
  | ok c =>
    rw [scan_of_ok dial p proto addr port w c hd]
    exact ⟨rfl, rfl, ⟨_, rfl, by simp [Event.isDial]⟩, rfl⟩

/-- C9: the timeout handed to the dial is 500 milliseconds, not the 10 seconds of
the comment above `Scan`: every dial recorded by a call carries
`500 * time.Millisecond`, which differs from `10 * time.Second`; and on a target
that accepts one second after the dial starts, which a 10-second dial reaches,
`Scan` answers "Closed". -/
theorem scan_timeout_is_half_a_second :
    (∀ (dial : Dial) (p : PortScan) (proto addr : String) (port : Int) (w : World),
      ∃ evs, (PortScan.Scan dial p proto addr port w).2.trace = w.trace ++ evs
        ∧ ∀ e ∈ evs, ∀ pr a t, e = Event.dial pr a t → t = 500 * Millisecond ∧ t ≠ 10 * Second)
    ∧ dialOk (acceptsAfter Second "tcp" (dialAddress "h" 80) (10 * Second)) = true
    ∧ (PortScan.Scan (acceptsAfter Second) { Port := 80, Status := "" } "tcp" "h" 80
        World.init).1.Status = "Closed" := by
  refine ⟨?_, by decide, by decide⟩
  intro dial p proto addr port w
  cases hd : dial proto (addr ++ ":" ++ Itoa port) (Millisecond * 500) with
  | error e =>
    rw [scan_of_error dial p proto addr port w e hd]
    refine ⟨_, rfl, ?_⟩
    intro e he pr a t h
    simp only [List.mem_singleton] at he
    subst he
    injection h with _ _ h3
    subst h3
    decide
  | ok c =>
    rw [scan_of_ok dial p proto addr port w c hd]
    refine ⟨_, rfl, ?_⟩
    intro e he pr a t h
    simp only [List.mem_cons, List.mem_singleton, List.mem_nil_iff, or_false] at he
    rcases he with he | he
    · subst he
      injection h with _ _ h3
      subst h3
      decide
    · subst he
      cases h

/-! ## `PortScan.New` -/

/-- What `PortScan.New` does to `*h`: Target and Protocol stay, and `p.Port` is
appended exactly when the dial to `port` of `h.Target` succeeds. -/
theorem portNew_effect (dial : Dial) (p : PortScan) (h : HostScan) (port : Int) (w : World) :
    (PortScan.New dial p h port w).h.Target = h.Target
    ∧ (PortScan.New dial p h port w).h.Protocol = h.Protocol
    ∧ (PortScan.New dial p h port w).h.Ports
        = (if isOpen dial h.Protocol h.Target port then Slice.append h.Ports p.Port
           else h.Ports) := by
  unfold isOpen dialAddress
  cases hd : dial h.Protocol (h.Target ++ ":" ++ Itoa port) (Millisecond * 500) with
  | error e =>
    simp [PortScan.New, scan_of_error dial p h.Protocol h.Target port w e hd, dialOk]
  | ok c =>
    simp [PortScan.New, scan_of_ok dial p h.Protocol h.Target port w c hd, dialOk]

/-- C10: `PortScan.New` appends `p.Port`, not the port it probed.  On a receiver
with Port 5 asked to probe port 80 of a host whose only open port is 80, the
dial to port 80 succeeds and 5, a closed port that was never dialled, is what
ends up in `h.Ports`. -/
theorem portNew_appends_receiver_port :
    isOpen (openAt ["h:80"]) "tcp" "h" 80 = true
    ∧ isOpen (openAt ["h:80"]) "tcp" "h" 5 = false
    ∧ (PortScan.New (openAt ["h:80"]) { Port := 5, Status := "" } (HostScan.fresh "h") 80
        { wg := 1, trace := [] }).h.Ports = some [5]
    ∧ (PortScan.New (openAt ["h:80"]) { Port := 5, Status := "" } (HostScan.fresh "h") 80
        { wg := 1, trace := [] }).w.trace
        = [Event.dial "tcp" "h:80" 500000000, Event.close { proto := "tcp", address := "h:80" }]
    ∧ (PortScan.New (openAt ["h:80"]) { Port := 5, Status := "" } (HostScan.fresh "h") 80
        { wg := 1, trace := [] }).exit = Exit.returned := by
  decide

/-! ## The unsynchronised append -/

/-- C2: with ports 1 and 2 of "h" both open and `scanScope = 2`, the interleaving
in which both goroutines read `h.Ports` (still nil) before either writes makes
`HostScan.New` return with `h.Ports = [2]`: open port 1 is not recorded. -/
theorem hostNew_loses_open_port :
    isOpen allOpen "tcp" "h" 1 = true
    ∧ (HostScan.New allOpen [0, 0, 1, 1, 0, 1] (HostScan.fresh "h") ScanResults.empty 2
        World.init).exit = Exit.returned
    ∧ (HostScan.New allOpen [0, 0, 1, 1, 0, 1] (HostScan.fresh "h") ScanResults.empty 2
        World.init).h.Ports = some [2] := by
  decide


/-! ## Invariants of the goroutine runs -/

/-- A pair of properties, of goroutines and of the shared state, kept by every
goroutine action is kept by one scheduled action. -/
theorem stepAt_preserves (dial : Dial) (G : Goroutine → Prop) (S : Shared → Prop)
    (hstep : ∀ g sh, G g → S sh → G (g.step dial sh).1 ∧ S (g.step dial sh).2)
    (i : Nat) (gs : List Goroutine) (sh : Shared) (hG : ∀ g ∈ gs, G g) (hS : S sh) :
    (∀ g ∈ (stepAt dial i gs sh).1, G g) ∧ S (stepAt dial i gs sh).2 := by
  unfold stepAt
  cases hi : gs[i]? with
  | none => exact ⟨hG, hS⟩
  | some g =>
    have hg := hG g (List.getElem?_mem hi)
    have h2 := hstep g sh hg hS
    refine ⟨?_, h2.2⟩
    intro g1 hg1
    rcases List.mem_or_eq_of_mem_set hg1 with h | h
    · exact hG g1 h
    · rw [h]; exact h2.1

/-- Such a pair is kept by a whole schedule. -/
theorem runSched_preserves (dial : Dial) (G : Goroutine → Prop) (S : Shared → Prop)
    (hstep : ∀ g sh, G g → S sh → G (g.step dial sh).1 ∧ S (g.step dial sh).2)
    (sched : List Nat) (gs : List Goroutine) (sh : Shared) (hG : ∀ g ∈ gs, G g) (hS : S sh) :
    (∀ g ∈ (runSched dial sched gs sh).1, G g) ∧ S (runSched dial sched gs sh).2 := by
  induction sched generalizing gs sh with
  | nil => exact ⟨hG, hS⟩
  | cons i rest ih =>
    have h1 := stepAt_preserves dial G S hstep i gs sh hG hS
    exact ih (stepAt dial i gs sh).1 (stepAt dial i gs sh).2 h1.1 h1.2

/-- Such a pair is kept while a goroutine runs to its end. -/
theorem finish_preserves (dial : Dial) (G : Goroutine → Prop) (S : Shared → Prop)
    (hstep : ∀ g sh, G g → S sh → G (g.step dial sh).1 ∧ S (g.step dial sh).2)
    (g : Goroutine) (sh : Shared) (hG : G g) (hS : S sh) : S (g.finish dial sh) := by
  have h1 := hstep g sh hG hS
  have h2 := hstep _ _ h1.1 h1.2
  exact (hstep _ _ h2.1 h2.2).2

/-- Such a pair is kept while the remaining goroutines run to their ends. -/
theorem drain_preserves (dial : Dial) (G : Goroutine → Prop) (S : Shared → Prop)
    (hstep : ∀ g sh, G g → S sh → G (g.step dial sh).1 ∧ S (g.step dial sh).2)
    (gs : List Goroutine) (sh : Shared) (hG : ∀ g ∈ gs, G g) (hS : S sh) :
    S (drain dial gs sh) := by
  induction gs generalizing sh with
  | nil => exact hS
  | cons g rest ih =>
    exact ih (g.finish dial sh) (fun x hx => hG x (List.mem_cons_of_mem _ hx))
      (finish_preserves dial G S hstep g sh (hG g (List.mem_cons_self _ _)) hS)

/-- `HostScan.New` in terms of `scanShared`. -/
theorem hostNew_eq (dial : Dial) (sched : List Nat) (h : HostScan) (s : ScanResults)
    (scanScope : Int) (w : World) :
    HostScan.New dial sched h s scanScope w =
      if w.wg + scanScope < 0 then
        { h := h, s := s, w := { w with wg := w.wg + scanScope },
          exit := Exit.panicked negativeCounter }
      else if (scanShared dial sched h scanScope w).crashed then
        { h := (scanShared dial sched h scanScope w).h, s := s,
          w := (scanShared dial sched h scanScope w).w, exit := Exit.panicked negativeCounter }
      else if (scanShared dial sched h scanScope w).w.wg ≠ 0 then
        { h := (scanShared dial sched h scanScope w).h, s := s,
          w := (scanShared dial sched h scanScope w).w, exit := Exit.deadlocked }
      else
        { h := (scanShared dial sched h scanScope w).h,
          s := if (scanShared dial sched h scanScope w).h.Ports.notNil then
                 { Results := Slice.append s.Results (scanShared dial sched h scanScope w).h }
               else s,
          w := (scanShared dial sched h scanScope w).w, exit := Exit.returned } := by
  rfl

/-- An invariant of the shared state holds when `wg.Wait()` returns. -/
theorem scanShared_preserves (dial : Dial) (G : Goroutine → Prop) (S : Shared → Prop)
    (hstep : ∀ g sh, G g → S sh → G (g.step dial sh).1 ∧ S (g.step dial sh).2)
    (sched : List Nat) (h : HostScan) (scanScope : Int) (w : World)
    (hG : ∀ i ∈ loopIndices scanScope, G (spawn i))
    (hS : S { h := h, w := { w with wg := w.wg + scanScope }, crashed := false }) :
    S (scanShared dial sched h scanScope w) := by
  have hG1 : ∀ g ∈ (loopIndices scanScope).map spawn, G g := by
    intro g hg
    rcases List.mem_map.1 hg with ⟨i, hi, rfl⟩
    exact hG i hi
  have h1 := runSched_preserves dial G S hstep sched _ _ hG1 hS
  exact drain_preserves dial G S hstep _ _ h1.1 h1.2


/-! ## What one goroutine action can change -/

/-- An action never touches `h.Target` or `h.Protocol`, and changes `h.Ports`
only by the write that ends an append. -/
theorem step_host (dial : Dial) (g : Goroutine) (sh : Shared) :
    (g.step dial sh).2.h.Target = sh.h.Target
    ∧ (g.step dial sh).2.h.Protocol = sh.h.Protocol
    ∧ ((g.step dial sh).2.h.Ports = sh.h.Ports
        ∨ ∃ tmp, g.pc = Pc.loaded tmp ∧ (g.step dial sh).2.h.Ports = Slice.append tmp g.p.Port) := by
  unfold Goroutine.step
  by_cases hc : sh.crashed = true
  · simp [hc]
  · rcases g with ⟨p, port, pc⟩
    cases pc with
    | entry => simp [hc]
    | scanned =>
      by_cases hs : p.Status = "Closed"
      · simp [hc, hs, wgDone]
      · simp [hc, hs]
    | loaded tmp => simp [hc, wgDone]
    | exited => simp [hc]

/-- A host scan leaves `h.Target` and `h.Protocol` alone. -/
theorem scanShared_host (dial : Dial) (sched : List Nat) (h : HostScan) (scanScope : Int)
    (w : World) :
    (scanShared dial sched h scanScope w).h.Target = h.Target
    ∧ (scanShared dial sched h scanScope w).h.Protocol = h.Protocol := by
  refine scanShared_preserves dial (fun _ => True)
    (fun sh => sh.h.Target = h.Target ∧ sh.h.Protocol = h.Protocol) ?_ sched h scanScope w
    (fun _ _ => trivial) ⟨rfl, rfl⟩
  intro g sh _ hS
  have := step_host dial g sh
  exact ⟨trivial, this.1.trans hS.1, this.2.1.trans hS.2⟩

/-- A slice that was `nil` or non-empty before a host scan is so after it. -/
theorem scanShared_ports_nil_or_nonempty (dial : Dial) (sched : List Nat) (h : HostScan)
    (scanScope : Int) (w : World) (h0 : ∀ l, h.Ports = some l → l ≠ []) :
    ∀ l, (scanShared dial sched h scanScope w).h.Ports = some l → l ≠ [] := by
  refine scanShared_preserves dial (fun _ => True)
    (fun sh => ∀ l, sh.h.Ports = some l → l ≠ []) ?_ sched h scanScope w
    (fun _ _ => trivial) h0
  intro g sh _ hS
  refine ⟨trivial, ?_⟩
  intro l hl
  rcases (step_host dial g sh).2.2 with h1 | ⟨tmp, _, h1⟩
  · exact hS l (h1 ▸ hl)
  · rw [h1] at hl
    simp only [Slice.append, Option.some.injEq] at hl
    rw [← hl]
    simp

/-- Status after `Scan`, in terms of `isOpen`. -/
theorem scan_status (dial : Dial) (p : PortScan) (proto addr : String) (port : Int) (w : World) :
    (PortScan.Scan dial p proto addr port w).1.Status
      = if isOpen dial proto addr port then "Open" else "Closed" := by
  unfold isOpen dialAddress
  cases hd : dial proto (addr ++ ":" ++ Itoa port) (Millisecond * 500) with
  | error e => rw [scan_of_error dial p proto addr port w e hd]; simp [dialOk]
  | ok c => rw [scan_of_ok dial p proto addr port w c hd]; simp [dialOk]

/-- Goroutines of closed ports never write `*h`. -/
theorem step_closed (dial : Dial) (h : HostScan) (g : Goroutine) (sh : Shared)
    (hG : ClosedGoroutine dial h g) (hS : sh.h = h) :
    ClosedGoroutine dial h (g.step dial sh).1 ∧ (g.step dial sh).2.h = h := by
  rcases g with ⟨p, port, pc⟩
  rcases hG with ⟨hcl, hpc⟩
  unfold Goroutine.step
  by_cases hc : sh.crashed = true
  · simpa [hc, hS] using (⟨hcl, hpc⟩ : ClosedGoroutine dial h ⟨p, port, pc⟩)
  · simp only [hc, Bool.false_eq_true, if_false]
    rcases hpc with hpc | ⟨hpc, hst⟩ | hpc
    · simp only at hpc
      subst hpc
      refine ⟨⟨hcl, Or.inr (Or.inl ⟨rfl, ?_⟩)⟩, hS⟩
      simp only at hcl
      simp only [hS, scan_status, hcl]
      simp
    · simp only at hpc hst
      subst hpc
      simp only [hst, ne_eq, not_true_eq_false, if_false]
      exact ⟨⟨hcl, Or.inr (Or.inr rfl)⟩, by simpa [wgDone] using hS⟩
    · simp only at hpc
      subst hpc
      exact ⟨⟨hcl, Or.inr (Or.inr rfl)⟩, hS⟩

/-- When every scanned port is closed, a host scan leaves `*h` as it was. -/
theorem scanShared_all_closed (dial : Dial) (sched : List Nat) (h : HostScan) (scanScope : Int)
    (w : World) (hcl : ∀ i ∈ loopIndices scanScope, isOpen dial h.Protocol h.Target i = false) :
    (scanShared dial sched h scanScope w).h = h := by
  refine scanShared_preserves dial (ClosedGoroutine dial h) (fun sh => sh.h = h)
    (fun g sh hG hS => step_closed dial h g sh hG hS) sched h scanScope w ?_ rfl
  intro i hi
  exact ⟨hcl i hi, Or.inl rfl⟩


/-! ## The inclusion test of `HostScan.New` -/

/-- C4, as stated, fails: started on a host whose Ports is a non-nil empty slice,
with the one scanned port closed, `HostScan.New` returns with Ports still empty
and has appended the host to the report. -/
theorem hostNew_adds_host_without_ports :
    isOpen allClosed "tcp" "h" 1 = false
    ∧ (HostScan.New allClosed [] { Target := "h", Protocol := "tcp", Ports := some [] }
        ScanResults.empty 1 World.init).exit = Exit.returned
    ∧ (HostScan.New allClosed [] { Target := "h", Protocol := "tcp", Ports := some [] }
        ScanResults.empty 1 World.init).h.Ports.toList = []
    ∧ (HostScan.New allClosed [] { Target := "h", Protocol := "tcp", Ports := some [] }
        ScanResults.empty 1 World.init).s.Results
        = some [{ Target := "h", Protocol := "tcp", Ports := some [] }] := by
  decide

/-- C4, amended: for every host record, report, scanScope and interleaving,
`HostScan.New` appends `*h` to `s.Results` exactly when it returns with
`h.Ports` non-nil, and leaves the report unchanged otherwise; when `h.Ports` is
nil at the start, it is non-nil after the scan only if it is non-empty, and a
host all of whose scanned ports are closed is not added. -/
theorem hostNew_appends_iff_ports_not_nil (dial : Dial) (sched : List Nat) (h : HostScan)
    (s : ScanResults) (scanScope : Int) (w : World) :
    (HostScan.New dial sched h s scanScope w).s
        = (if (HostScan.New dial sched h s scanScope w).exit = Exit.returned
              ∧ (HostScan.New dial sched h s scanScope w).h.Ports.notNil = true then
            { Results := Slice.append s.Results (HostScan.New dial sched h s scanScope w).h }
          else s)
    ∧ (h.Ports = none →
        ((HostScan.New dial sched h s scanScope w).h.Ports.notNil = true →
          (HostScan.New dial sched h s scanScope w).h.Ports.toList ≠ [])
        ∧ ((∀ i ∈ loopIndices scanScope, isOpen dial h.Protocol h.Target i = false) →
          (HostScan.New dial sched h s scanScope w).s = s)) := by
  have hnil : h.Ports = none →
      ∀ l, (scanShared dial sched h scanScope w).h.Ports = some l → l ≠ [] := by
    intro h0
    exact scanShared_ports_nil_or_nonempty dial sched h scanScope w (by simp [h0])
  have hclosed : (∀ i ∈ loopIndices scanScope, isOpen dial h.Protocol h.Target i = false) →
      (scanShared dial sched h scanScope w).h = h :=
    scanShared_all_closed dial sched h scanScope w
  have hne : (scanShared dial sched h scanScope w).h.Ports.notNil = true → h.Ports = none →
      (scanShared dial sched h scanScope w).h.Ports.toList ≠ [] := by
    intro hn h0
    cases hp : (scanShared dial sched h scanScope w).h.Ports with
    | none => simp [hp, Slice.notNil] at hn
    | some l => simpa [Slice.toList] using hnil h0 l hp
  rw [hostNew_eq]
  by_cases h1 : w.wg + scanScope < 0
  · rw [if_pos h1]
    exact ⟨by simp, fun h0 => ⟨by simp [h0, Slice.notNil], fun _ => rfl⟩⟩
  · rw [if_neg h1]
    by_cases h2 : (scanShared dial sched h scanScope w).crashed = true
    · rw [if_pos h2]
      exact ⟨by simp, fun h0 => ⟨fun hn => hne hn h0, fun _ => rfl⟩⟩
    · rw [if_neg h2]
      by_cases h3 : (scanShared dial sched h scanScope w).w.wg ≠ 0
      · rw [if_pos h3]
        exact ⟨by simp, fun h0 => ⟨fun hn => hne hn h0, fun _ => rfl⟩⟩
      · rw [if_neg h3]
        refine ⟨by simp, fun h0 => ⟨fun hn => hne hn h0, ?_⟩⟩
        intro hcl
        show (if (scanShared dial sched h scanScope w).h.Ports.notNil = true then _ else s) = s
        rw [hclosed hcl]
        simp [h0, Slice.notNil]

/-- C4, amended, at a concrete scan: host "h" with nil Ports, three ports, all
closed, goroutines interleaved. -/
theorem hostNew_appends_iff_ports_not_nil_witness :
    (HostScan.fresh "h").Ports = none
    ∧ (∀ i ∈ loopIndices 3, isOpen allClosed (HostScan.fresh "h").Protocol
        (HostScan.fresh "h").Target i = false)
    ∧ (HostScan.New allClosed [2, 0, 1, 0] (HostScan.fresh "h") ScanResults.empty 3
        World.init).s = ScanResults.empty :=
  ⟨rfl, by decide,
    ((hostNew_appends_iff_ports_not_nil allClosed [2, 0, 1, 0] (HostScan.fresh "h")
      ScanResults.empty 3 World.init).2 rfl).2 (by decide)⟩


/-! ## No validation of the configuration -/

/-- The dials of one `Scan` carry the protocol, address and timeout it was given. -/
theorem scan_trace (dial : Dial) (p : PortScan) (proto addr : String) (port : Int) (w : World) :
    ∃ evs, (PortScan.Scan dial p proto addr port w).2.trace = w.trace ++ evs
      ∧ ∀ e ∈ evs, ∀ pr a t, e = Event.dial pr a t →
          pr = proto ∧ a = addr ++ ":" ++ Itoa port ∧ t = Millisecond * 500 := by
  cases hd : dial proto (addr ++ ":" ++ Itoa port) (Millisecond * 500) with
  | error e =>
    rw [scan_of_error dial p proto addr port w e hd]
    refine ⟨_, rfl, ?_⟩
    intro e he pr a t h
    simp only [List.mem_singleton] at he
    subst he
    injection h with h1 h2 h3
    exact ⟨h1.symm, h2.symm, h3.symm⟩
  | ok c =>
    rw [scan_of_ok dial p proto addr port w c hd]
    refine ⟨_, rfl, ?_⟩
    intro e he pr a t h
    simp only [List.mem_cons, List.mem_singleton, List.mem_nil_iff, or_false] at he
    rcases he with he | he
    · subst he
      injection h with h1 h2 h3
      exact ⟨h1.symm, h2.symm, h3.symm⟩
    · subst he
      cases h

/-- One goroutine action extends the trace, and only by dials over `h.Protocol`. -/
theorem step_trace (dial : Dial) (g : Goroutine) (sh : Shared) :
    ∃ evs, (g.step dial sh).2.w.trace = sh.w.trace ++ evs
      ∧ ∀ e ∈ evs, ∀ pr a t, e = Event.dial pr a t → pr = sh.h.Protocol := by
  unfold Goroutine.step
  by_cases hc : sh.crashed = true
  · exact ⟨[], by simp [hc], by simp⟩
  · rcases g with ⟨p, port, pc⟩
    cases pc with
    | entry =>
      rcases scan_trace dial p sh.h.Protocol sh.h.Target port sh.w with ⟨evs, h1, h2⟩
      exact ⟨evs, by simpa [hc] using h1, fun e he pr a t h => (h2 e he pr a t h).1⟩
    | scanned =>
      by_cases hs : p.Status = "Closed"
      · exact ⟨[], by simp [hc, hs, wgDone], by simp⟩
      · exact ⟨[], by simp [hc, hs], by simp⟩
    | loaded tmp => exact ⟨[], by simp [hc, wgDone], by simp⟩
    | exited => exact ⟨[], by simp [hc], by simp⟩

/-- Every dial of a host scan is made over `h.Protocol` as given. -/
theorem scanShared_trace (dial : Dial) (sched : List Nat) (h : HostScan) (scanScope : Int)
    (w : World) :
    ∃ evs, (scanShared dial sched h scanScope w).w.trace = w.trace ++ evs
      ∧ ∀ e ∈ evs, ∀ pr a t, e = Event.dial pr a t → pr = h.Protocol := by
  have key := scanShared_preserves dial (fun _ => True)
    (fun sh => sh.h.Protocol = h.Protocol ∧ ∃ evs, sh.w.trace = w.trace ++ evs
      ∧ ∀ e ∈ evs, ∀ pr a t, e = Event.dial pr a t → pr = h.Protocol) ?_ sched h scanScope w
    (fun _ _ => trivial) ⟨rfl, [], by simp, by simp⟩
  · exact key.2
  · intro g sh _ hS
    rcases hS with ⟨hP, evs, h1, h2⟩
    rcases step_trace dial g sh with ⟨evs1, h3, h4⟩
    refine ⟨trivial, (step_host dial g sh).2.1.trans hP, evs ++ evs1, ?_, ?_⟩
    · rw [h3, h1, List.append_assoc]
    · intro e he pr a t h5
      rcases List.mem_append.1 he with he | he
      · exact h2 e he pr a t h5
      · exact (h4 e he pr a t h5).trans hP

/-- With no goroutine, a schedule does nothing. -/
theorem runSched_nil (dial : Dial) (sched : List Nat) (sh : Shared) :
    runSched dial sched [] sh = ([], sh) := by
  induction sched with
  | nil => rfl
  | cons i rest ih => simpa [runSched, stepAt] using ih

/-- A scanScope of zero or less gives the loop no iteration. -/
theorem loopIndices_of_nonpos (scanScope : Int) (h : scanScope ≤ 0) :
    loopIndices scanScope = [] := by
  simp [loopIndices, Int.toNat_of_nonpos h]

/-- With `scanScope = 0` and the package wait group at zero, `HostScan.New`
returns at once; a host with nil Ports is not added. -/
theorem hostNew_zero (dial : Dial) (sched : List Nat) (h : HostScan) (s : ScanResults)
    (w : World) (hw : w.wg = 0) (h0 : h.Ports = none) :
    HostScan.New dial sched h s 0 w = { h := h, s := s, w := w, exit := Exit.returned } := by
  have hsh : scanShared dial sched h 0 w = { h := h, w := w, crashed := false } := by
    unfold scanShared
    rw [loopIndices_of_nonpos 0 (le_refl 0)]
    simp only [List.map_nil, runSched_nil, drain]
    cases w
    simp
  rw [hostNew_eq, hsh]
  simp [hw, h0, Slice.notNil]

/-- With `scanScope = 0` the loop of `Create` changes nothing. -/
theorem createLoop_zero (dial : Dial) (hosts : List String) (scheds : List (List Nat))
    (s : ScanResults) (w : World) (hw : w.wg = 0) :
    createLoop dial 0 hosts scheds s w = (s, w, Exit.returned) := by
  induction hosts generalizing scheds with
  | nil => rfl
  | cons e rest ih =>
    unfold createLoop
    rw [hostNew_zero dial _ _ s w hw rfl]
    exact ih scheds.tail

/-- C6, as stated, fails: with an empty target list, and with `scanScope = 0`,
`Create` returns normally, no error reported; with a protocol no transport
supports, `HostScan.New` still dials (the probe is attempted) and returns
normally. -/
theorem create_reports_no_configuration_error :
    (ScanResults.Create allOpen [] ScanResults.empty 1 [] 1024 World.init).exit = Exit.returned
    ∧ (ScanResults.Create allOpen [] ScanResults.empty 1 ["a"] 0 World.init).exit = Exit.returned
    ∧ (HostScan.New (openAt ["h:1"]) [] { Target := "h", Protocol := "bogus", Ports := none }
        ScanResults.empty 1 World.init).exit = Exit.returned
    ∧ (HostScan.New (openAt ["h:1"]) [] { Target := "h", Protocol := "bogus", Ports := none }
        ScanResults.empty 1 World.init).w.trace = [Event.dial "bogus" "h:1" 500000000] := by
  decide

/-! ## Goroutines running one after another, in launch order -/

/-- Elements after repeated appends. -/
theorem Slice.toList_appendAll {α : Type} (s : Slice α) (l : List α) :
    (Slice.appendAll s l).toList = s.toList ++ l := by
  induction l generalizing s with
  | nil => simp [Slice.appendAll]
  | cons x rest ih =>
    have h := ih (Slice.append s x)
    simp only [Slice.appendAll, List.foldl_cons] at h ⊢
    rw [h]
    simp [Slice.append, Slice.toList]

/-- A goroutine that runs alone from start to end does what `PortScan.New` does:
it appends its port when the dial succeeds and decrements the wait group. -/
theorem finish_spawn (dial : Dial) (i : Int) (sh : Shared) (hc : sh.crashed = false)
    (hwg : 1 ≤ sh.w.wg) :
    (Goroutine.finish dial (spawn i) sh).h
        = { sh.h with Ports := (Slice.appendAll sh.h.Ports
              (if isOpen dial sh.h.Protocol sh.h.Target i then [i] else [])) }
    ∧ (Goroutine.finish dial (spawn i) sh).w.wg = sh.w.wg - 1
    ∧ (Goroutine.finish dial (spawn i) sh).crashed = false := by
  have hd : ¬ (sh.w.wg - 1 < 0) := by omega
  unfold isOpen dialAddress
  cases hdial : dial sh.h.Protocol (sh.h.Target ++ ":" ++ Itoa i) (Millisecond * 500) with
  | error e =>
    simp [Goroutine.finish, Goroutine.step, spawn, hc,
      scan_of_error dial _ sh.h.Protocol sh.h.Target i sh.w e hdial, wgDone, dialOk, hd,
      Slice.appendAll]
  | ok c =>
    simp [Goroutine.finish, Goroutine.step, spawn, hc,
      scan_of_ok dial _ sh.h.Protocol sh.h.Target i sh.w c hdial, wgDone, dialOk, hd,
      Slice.appendAll]

/-- Fresh goroutines run one after another append the open ports in order. -/
theorem drain_spawn (dial : Dial) (idx : List Int) (sh : Shared) (hc : sh.crashed = false)
    (hwg : (idx.length : Int) ≤ sh.w.wg) :
    (drain dial (idx.map spawn) sh).h
        = { sh.h with Ports := (Slice.appendAll sh.h.Ports
              (idx.filter (isOpen dial sh.h.Protocol sh.h.Target))) }
    ∧ (drain dial (idx.map spawn) sh).w.wg = sh.w.wg - idx.length
    ∧ (drain dial (idx.map spawn) sh).crashed = false := by
  induction idx generalizing sh with
  | nil => simp [drain, Slice.appendAll, hc]
  | cons i rest ih =>
    simp only [List.length_cons, Nat.cast_add, Nat.cast_one] at hwg
    have h1 := finish_spawn dial i sh hc (by omega)
    have h2 := ih (Goroutine.finish dial (spawn i) sh) h1.2.2 (by rw [h1.2.1]; omega)
    simp only [List.map_cons, drain]
    refine ⟨?_, ?_, h2.2.2⟩
    · rw [h2.1, h1.1]
      by_cases ho : isOpen dial sh.h.Protocol sh.h.Target i = true
      · simp [ho, List.filter_cons, Slice.appendAll]
      · simp [ho, List.filter_cons, Slice.appendAll]
    · rw [h2.2.1, h1.2.1]
      simp only [List.length_cons, Nat.cast_add, Nat.cast_one]
      omega

/-- The loop runs `scanScope` times. -/
theorem loopIndices_length (scanScope : Int) (h : 0 ≤ scanScope) :
    ((loopIndices scanScope).length : Int) = scanScope := by
  unfold loopIndices
  rw [List.length_map, List.length_range]
  exact Int.toNat_of_nonneg h

/-- The loop indices come in ascending order. -/
theorem loopIndices_sorted (scanScope : Int) :
    List.Pairwise (fun a b : Int => a < b) (loopIndices scanScope) := by
  unfold loopIndices
  rw [List.pairwise_map]
  exact (List.pairwise_lt_range _).imp
    (fun {a b} hab => Int.add_lt_add_right (Int.ofNat_lt.2 hab) 1)

/-- The shared state after a host scan whose goroutines ran one after another. -/
theorem scanShared_launch_order (dial : Dial) (h : HostScan) (scanScope : Int) (w : World)
    (hw : w.wg = 0) (hn : 0 ≤ scanScope) :
    (scanShared dial [] h scanScope w).h
        = { h with Ports := (Slice.appendAll h.Ports
              ((loopIndices scanScope).filter (isOpen dial h.Protocol h.Target))) }
    ∧ (scanShared dial [] h scanScope w).w.wg = 0
    ∧ (scanShared dial [] h scanScope w).crashed = false := by
  rcases w with ⟨wg, trace⟩
  simp only at hw
  subst hw
  have hlen := loopIndices_length scanScope hn
  have key := drain_spawn dial (loopIndices scanScope)
    { h := h, w := { wg := 0 + scanScope, trace := trace }, crashed := false } rfl
    (by simp only [hlen]; omega)
  refine ⟨key.1, ?_, key.2.2⟩
  have h2 := key.2.1
  simp only [hlen] at h2
  unfold scanShared
  simp only [runSched]
  rw [h2]
  omega


/-! ## Order of the recorded ports -/

set_option maxRecDepth 100000 in
/-- C3, as stated, fails: with exactly ports 22 and 80 of "h" reachable and
`scanScope = 100`, the interleaving in which the goroutine of port 80 runs first
makes `HostScan.New` return `Ports = [80, 22]`, which is not ascending. -/
theorem hostNew_ports_not_ascending :
    (loopIndices 100).filter (isOpen (openAt ["h:22", "h:80"]) "tcp" "h") = [22, 80]
    ∧ (HostScan.New (openAt ["h:22", "h:80"]) [79, 79, 79] (HostScan.fresh "h")
        ScanResults.empty 100 World.init).exit = Exit.returned
    ∧ (HostScan.New (openAt ["h:22", "h:80"]) [79, 79, 79] (HostScan.fresh "h")
        ScanResults.empty 100 World.init).h.Ports = some [80, 22] := by
  decide

set_option maxRecDepth 100000 in
/-- C3, amended: for every host record without ports and every transport, when
the goroutines of the ports run one after another in launch order (package wait
group at zero, `0 ≤ scanScope < 2^31`, the range of the wait group counter),
`HostScan.New` returns and the recorded ports are the open ports of
`1..scanScope` in ascending order; in particular, if of the ports `1..100`
exactly 22 and 80 are reachable, scanning with `scanScope = 100` records
`[22, 80]`. -/
theorem hostNew_launch_order_ascending (dial : Dial) (h : HostScan) (s : ScanResults)
    (scanScope : Int) (w : World) (hw : w.wg = 0) (hn : 0 ≤ scanScope)
    (_hb : scanScope < 2147483648) (h0 : h.Ports.toList = []) :
    (HostScan.New dial [] h s scanScope w).exit = Exit.returned
    ∧ (HostScan.New dial [] h s scanScope w).h.Ports.toList
        = (loopIndices scanScope).filter (isOpen dial h.Protocol h.Target)
    ∧ List.Pairwise (fun a b : Int => a < b) (HostScan.New dial [] h s scanScope w).h.Ports.toList
    ∧ (scanScope = 100 →
        (∀ i ∈ loopIndices 100, isOpen dial h.Protocol h.Target i = decide (i = 22 ∨ i = 80)) →
        (HostScan.New dial [] h s scanScope w).h.Ports.toList = [22, 80]) := by
  have key := scanShared_launch_order dial h scanScope w hw hn
  have h1 : ¬ (w.wg + scanScope < 0) := by omega
  have h2 : ¬ ((scanShared dial [] h scanScope w).crashed = true) := by simp [key.2.2]
  have h3 : ¬ ((scanShared dial [] h scanScope w).w.wg ≠ 0) := by simp [key.2.1]
  have hports : (HostScan.New dial [] h s scanScope w).h.Ports.toList
      = (loopIndices scanScope).filter (isOpen dial h.Protocol h.Target) := by
    rw [hostNew_eq, if_neg h1, if_neg h2, if_neg h3]
    show (scanShared dial [] h scanScope w).h.Ports.toList = _
    rw [key.1]
    simp [Slice.toList_appendAll, h0]
  refine ⟨?_, hports, ?_, ?_⟩
  · rw [hostNew_eq, if_neg h1, if_neg h2, if_neg h3]
  · rw [hports]
    exact (loopIndices_sorted scanScope).filter _
  · intro h100 hopen
    rw [hports, h100, List.filter_congr hopen]
    decide

set_option maxRecDepth 100000 in
/-- C3, amended, at the scan of the claim: host "h" with exactly ports 22 and 80
reachable, `scanScope = 100`. -/
theorem hostNew_launch_order_ascending_witness :
    World.init.wg = 0 ∧ (0 : Int) ≤ 100 ∧ (100 : Int) < 2147483648
    ∧ (HostScan.fresh "h").Ports.toList = []
    ∧ (HostScan.New (openAt ["h:22", "h:80"]) [] (HostScan.fresh "h") ScanResults.empty 100
        World.init).h.Ports.toList = [22, 80] :=
  ⟨rfl, by decide, by decide, rfl,
    (hostNew_launch_order_ascending (openAt ["h:22", "h:80"]) (HostScan.fresh "h")
      ScanResults.empty 100 World.init rfl (by decide) (by decide) rfl).2.2.2 rfl (by decide)⟩

/-! ## Lost appends, seen from `Create` and across runs -/

/-- C5: with the single target "a", both ports of `1..2` open, and the two
goroutines reading `h.Ports` before either writes, `Create` on an empty report
returns the record of "a" with Ports `[2]`: open port 1 is missing. -/
theorem create_loses_open_port :
    (loopIndices 2).filter (isOpen allOpen "tcp" "a") = [1, 2]
    ∧ (ScanResults.Create allOpen [[0, 0, 1, 1, 0, 1]] ScanResults.empty 1 ["a"] 2
        World.init).exit = Exit.returned
    ∧ (ScanResults.Create allOpen [[0, 0, 1, 1, 0, 1]] ScanResults.empty 1 ["a"] 2
        World.init).s.Results = some [{ Target := "a", Protocol := "tcp", Ports := some [2] }] := by
  decide

/-- C7: two runs of `Create` on the same target, scope and transport, one with
the goroutines one after another and one with both reading `h.Ports` before
either writes, return records with different port sets: port 2 is recorded for
"a" in the first run and not in the second. -/
theorem create_runs_differ :
    (ScanResults.Create allOpen [[]] ScanResults.empty 1 ["a"] 2 World.init).s.Results
        = some [{ Target := "a", Protocol := "tcp", Ports := some [1, 2] }]
    ∧ (ScanResults.Create allOpen [[0, 0, 1, 1, 1, 0]] ScanResults.empty 1 ["a"] 2
        World.init).s.Results = some [{ Target := "a", Protocol := "tcp", Ports := some [1] }]
    ∧ (ScanResults.Create allOpen [[]] ScanResults.empty 1 ["a"] 2 World.init).exit
        = Exit.returned
    ∧ (ScanResults.Create allOpen [[0, 0, 1, 1, 1, 0]] ScanResults.empty 1 ["a"] 2
        World.init).exit = Exit.returned := by
  decide

/-- C8: nothing serialises the appends to `h.Ports`.  Scanning 1,000 ports of
which the 500 even ones are open, with the goroutines of ports 2 and 4 both
reading `h.Ports` before either writes, `HostScan.New` returns 499 entries: open
port 2 is lost. -/
theorem hostNew_race_loses_entry :
    ((loopIndices 1000).filter (isOpen evenOpen "tcp" "h")).length = 500
    ∧ isOpen evenOpen "tcp" "h" 2 = true
    ∧ (HostScan.New evenOpen [1, 1, 3, 3, 1, 3] (HostScan.fresh "h") ScanResults.empty 1000
        World.init).exit = Exit.returned
    ∧ (HostScan.New evenOpen [1, 1, 3, 3, 1, 3] (HostScan.fresh "h") ScanResults.empty 1000
        World.init).h.Ports.toList.length = 499
    ∧ 2 ∉ (HostScan.New evenOpen [1, 1, 3, 3, 1, 3] (HostScan.fresh "h") ScanResults.empty 1000
        World.init).h.Ports.toList := by
  decide!


/-! ## The join: `HostScan.New` returns under every interleaving -/

/-- `Scan` leaves the wait group alone. -/
theorem scan_wg (dial : Dial) (p : PortScan) (proto addr : String) (port : Int) (w : World) :
    (PortScan.Scan dial p proto addr port w).2.wg = w.wg := by
  cases hd : dial proto (addr ++ ":" ++ Itoa port) (Millisecond * 500) with
  | error e => rw [scan_of_error dial p proto addr port w e hd]
  | ok c => rw [scan_of_ok dial p proto addr port w c hd]

/-- A goroutine run alone from its start is a call of `PortScan.New`. -/
theorem finish_eq_portNew (dial : Dial) (p : PortScan) (port : Int) (sh : Shared)
    (hc : sh.crashed = false) :
    Goroutine.finish dial { p := p, port := port, pc := Pc.entry } sh
      = { h := (PortScan.New dial p sh.h port sh.w).h,
          w := (PortScan.New dial p sh.h port sh.w).w,
          crashed := decide ((PortScan.New dial p sh.h port sh.w).exit ≠ Exit.returned) } := by
  cases hdial : dial sh.h.Protocol (sh.h.Target ++ ":" ++ Itoa port) (Millisecond * 500) with
  | error e =>
    by_cases hd : sh.w.wg - 1 < 0
    · simp [Goroutine.finish, Goroutine.step, PortScan.New, hc,
        scan_of_error dial _ sh.h.Protocol sh.h.Target port sh.w e hdial, wgDone, hd]
    · simp [Goroutine.finish, Goroutine.step, PortScan.New, hc,
        scan_of_error dial _ sh.h.Protocol sh.h.Target port sh.w e hdial, wgDone, hd]
  | ok c =>
    by_cases hd : sh.w.wg - 1 < 0
    · simp [Goroutine.finish, Goroutine.step, PortScan.New, hc,
        scan_of_ok dial _ sh.h.Protocol sh.h.Target port sh.w c hdial, wgDone, hd]
    · simp [Goroutine.finish, Goroutine.step, PortScan.New, hc,
        scan_of_ok dial _ sh.h.Protocol sh.h.Target port sh.w c hdial, wgDone, hd]

/-- One action keeps the count: with `k` other goroutines outstanding, the wait
group stays at `k` plus one for a live goroutine, and no panic arises. -/
theorem step_count (dial : Dial) (g : Goroutine) (sh : Shared) (k : Int) (hk : 0 ≤ k)
    (hc : sh.crashed = false) (hwg : sh.w.wg = k + (if g.live then 1 else 0)) :
    (g.step dial sh).2.crashed = false
    ∧ (g.step dial sh).2.w.wg = k + (if (g.step dial sh).1.live then 1 else 0) := by
  rcases g with ⟨p, port, pc⟩
  unfold Goroutine.step
  cases pc with
  | entry =>
    simp only [Goroutine.live] at hwg
    simp [hc, Goroutine.live, scan_wg, hwg]
  | scanned =>
    simp only [Goroutine.live] at hwg
    by_cases hs : p.Status = "Closed"
    · simp [hc, hs, Goroutine.live, wgDone, hwg, hk]
    · simp [hc, hs, Goroutine.live, hwg]
  | loaded tmp =>
    simp only [Goroutine.live] at hwg
    simp [hc, Goroutine.live, wgDone, hwg, hk]
  | exited =>
    simp only [Goroutine.live] at hwg
    simp [hc, Goroutine.live, hwg]

/-- The element at a valid index splits the list, and `set` replaces it there. -/
theorem split_at_index {α : Type} (l : List α) (i : Nat) (x : α) (h : l[i]? = some x) :
    ∃ l1 l2, l = l1 ++ x :: l2 ∧ ∀ y, l.set i y = l1 ++ y :: l2 := by
  induction l generalizing i with
  | nil => simp at h
  | cons a rest ih =>
    cases i with
    | zero =>
      simp only [List.getElem?_cons_zero, Option.some.injEq] at h
      subst h
      exact ⟨[], rest, rfl, fun y => rfl⟩
    | succ j =>
      simp only [List.getElem?_cons_succ] at h
      rcases ih j h with ⟨l1, l2, h1, h2⟩
      refine ⟨a :: l1, l2, by rw [h1]; rfl, fun y => ?_⟩
      simp only [List.set_cons_succ, h2 y, List.cons_append]

/-- Count of live goroutines around one position. -/
theorem pending_split (l1 l2 : List Goroutine) (g : Goroutine) :
    (pending (l1 ++ g :: l2) : Int)
      = (pending l1 : Int) + (pending l2 : Int) + (if g.live then 1 else 0) := by
  unfold pending
  rw [List.countP_append, List.countP_cons]
  by_cases hl : g.live = true
  · simp only [hl, if_true]; push_cast; ring
  · simp only [hl, Bool.false_eq_true, if_false]; push_cast; ring

/-- One scheduled action keeps the wait group equal to the base count plus the
number of live goroutines, and raises no panic. -/
theorem stepAt_count (dial : Dial) (i : Nat) (gs : List Goroutine) (sh : Shared) (w0 : Int)
    (hw0 : 0 ≤ w0) (hc : sh.crashed = false) (hwg : sh.w.wg = w0 + pending gs) :
    (stepAt dial i gs sh).2.crashed = false
    ∧ (stepAt dial i gs sh).2.w.wg = w0 + pending (stepAt dial i gs sh).1 := by
  unfold stepAt
  cases hi : gs[i]? with
  | none => exact ⟨hc, hwg⟩
  | some g =>
    rcases split_at_index gs i g hi with ⟨l1, l2, h1, h2⟩
    have hk : (0 : Int) ≤ w0 + pending l1 + pending l2 := by positivity
    have key := step_count dial g sh (w0 + pending l1 + pending l2) hk hc
      (by rw [hwg, h1, pending_split]; ring)
    refine ⟨key.1, ?_⟩
    show (g.step dial sh).2.w.wg = w0 + pending (gs.set i (g.step dial sh).1)
    rw [key.2, h2, pending_split]
    ring

/-- A whole schedule keeps the count. -/
theorem runSched_count (dial : Dial) (sched : List Nat) (gs : List Goroutine) (sh : Shared)
    (w0 : Int) (hw0 : 0 ≤ w0) (hc : sh.crashed = false) (hwg : sh.w.wg = w0 + pending gs) :
    (runSched dial sched gs sh).2.crashed = false
    ∧ (runSched dial sched gs sh).2.w.wg = w0 + pending (runSched dial sched gs sh).1 := by
  induction sched generalizing gs sh with
  | nil => exact ⟨hc, hwg⟩
  | cons i rest ih =>
    have h1 := stepAt_count dial i gs sh w0 hw0 hc hwg
    exact ih (stepAt dial i gs sh).1 (stepAt dial i gs sh).2 h1.1 h1.2

/-- Every action of a running process uses up one of the goroutine's actions. -/
theorem step_rank (dial : Dial) (g : Goroutine) (sh : Shared) (hc : sh.crashed = false) :
    (g.step dial sh).1.pc.rank ≤ g.pc.rank - 1 := by
  rcases g with ⟨p, port, pc⟩
  unfold Goroutine.step
  cases pc with
  | entry => simp [hc, Pc.rank]
  | scanned =>
    by_cases hs : p.Status = "Closed"
    · simp [hc, hs, Pc.rank]
    · simp [hc, hs, Pc.rank]
  | loaded tmp => simp [hc, Pc.rank]
  | exited => simp [hc, Pc.rank]

/-- A goroutine has at most three actions. -/
theorem rank_le_three (pc : Pc) : pc.rank ≤ 3 := by
  cases pc <;> simp [Pc.rank]

/-- Only a finished goroutine has no action left. -/
theorem exited_of_rank_zero (pc : Pc) (h : pc.rank = 0) : pc = Pc.exited := by
  cases pc <;> simp [Pc.rank] at h ⊢

/-- After three actions a goroutine is over, the count is one lower if it was
live, and no panic arose. -/
theorem run3_exited (dial : Dial) (g : Goroutine) (sh : Shared) (k : Int) (hk : 0 ≤ k)
    (hc : sh.crashed = false) (hwg : sh.w.wg = k + (if g.live then 1 else 0)) :
    (g.run3 dial sh).1.pc = Pc.exited
    ∧ (g.run3 dial sh).2.crashed = false
    ∧ (g.run3 dial sh).2.w.wg = k := by
  have s1 := step_count dial g sh k hk hc hwg
  have s2 := step_count dial _ _ k hk s1.1 s1.2
  have s3 := step_count dial _ _ k hk s2.1 s2.2
  have r1 := step_rank dial g sh hc
  have r2 := step_rank dial (g.step dial sh).1 (g.step dial sh).2 s1.1
  have r3 := step_rank dial ((g.step dial sh).1.step dial (g.step dial sh).2).1
    ((g.step dial sh).1.step dial (g.step dial sh).2).2 s2.1
  have r0 := rank_le_three g.pc
  have hpc : (g.run3 dial sh).1.pc = Pc.exited := by
    apply exited_of_rank_zero
    show (((g.step dial sh).1.step dial (g.step dial sh).2).1.step dial
      ((g.step dial sh).1.step dial (g.step dial sh).2).2).1.pc.rank = 0
    omega
  refine ⟨hpc, s3.1, ?_⟩
  have h3 := s3.2
  have hl : (g.run3 dial sh).1.live = false := by simp [Goroutine.live, hpc]
  unfold Goroutine.run3 at hl
  simp only [hl, Bool.false_eq_true, if_false, add_zero] at h3
  exact h3

/-- Running the remaining goroutines to their ends brings the wait group down
to the base count, with no panic. -/
theorem drain_count (dial : Dial) (gs : List Goroutine) (sh : Shared) (w0 : Int)
    (hw0 : 0 ≤ w0) (hc : sh.crashed = false) (hwg : sh.w.wg = w0 + pending gs) :
    (drain dial gs sh).crashed = false ∧ (drain dial gs sh).w.wg = w0 := by
  induction gs generalizing sh with
  | nil => exact ⟨hc, by simpa [pending] using hwg⟩
  | cons g rest ih =>
    have hsplit := pending_split [] rest g
    simp only [List.nil_append] at hsplit
    have hk : (0 : Int) ≤ w0 + pending rest := by positivity
    have key := run3_exited dial g sh (w0 + pending rest) hk hc
      (by rw [hwg, hsplit]; simp [pending]; ring)
    exact ih (g.finish dial sh) key.2.1 key.2.2

/-- The join barrier: with the package wait group at zero and
`0 ≤ scanScope < 2^31` (the range of the wait group counter), `HostScan.New`
returns under every interleaving of the model; it neither panics nor blocks. -/
theorem hostNew_returns (dial : Dial) (sched : List Nat) (h : HostScan) (s : ScanResults)
    (scanScope : Int) (w : World) (hw : w.wg = 0) (hn : 0 ≤ scanScope)
    (_hb : scanScope < 2147483648) :
    (HostScan.New dial sched h s scanScope w).exit = Exit.returned
    ∧ (HostScan.New dial sched h s scanScope w).w.wg = 0
    ∧ (HostScan.New dial sched h s scanScope w).h = (scanShared dial sched h scanScope w).h := by
  have hpend : (pending ((loopIndices scanScope).map spawn) : Int) = scanScope := by
    have : pending ((loopIndices scanScope).map spawn) = (loopIndices scanScope).length := by
      unfold pending
      rw [List.countP_eq_length.2]
      · simp
      · intro g hg
        rcases List.mem_map.1 hg with ⟨i, _, rfl⟩
        rfl
    rw [this]
    exact loopIndices_length scanScope hn
  have h1 := runSched_count dial sched ((loopIndices scanScope).map spawn)
    { h := h, w := { w with wg := w.wg + scanScope }, crashed := false } 0 (le_refl 0) rfl
    (by simp [hpend, hw])
  have h2 := drain_count dial _ _ 0 (le_refl 0) h1.1 h1.2
  have e1 : ¬ (w.wg + scanScope < 0) := by omega
  have e2 : ¬ ((scanShared dial sched h scanScope w).crashed = true) := by
    unfold scanShared; simp [h2.1]
  have e3 : ¬ ((scanShared dial sched h scanScope w).w.wg ≠ 0) := by
    unfold scanShared; simp [h2.2]
  rw [hostNew_eq, if_neg e1, if_neg e2, if_neg e3]
  refine ⟨rfl, ?_, rfl⟩
  unfold scanShared
  exact h2.2


/-! ## Only open ports of the range are recorded, under every interleaving -/

/-- `Scan` leaves the Port field alone. -/
theorem scan_port (dial : Dial) (p : PortScan) (proto addr : String) (port : Int) (w : World) :
    (PortScan.Scan dial p proto addr port w).1.Port = p.Port := by
  cases hd : dial proto (addr ++ ":" ++ Itoa port) (Millisecond * 500) with
  | error e => rw [scan_of_error dial p proto addr port w e hd]
  | ok c => rw [scan_of_ok dial p proto addr port w c hd]

/-- One action keeps every goroutine sound and `h.Ports` within the ports that
may be recorded. -/
theorem step_sound (dial : Dial) (h : HostScan) (scanScope : Int) (g : Goroutine) (sh : Shared)
    (hG : SoundGoroutine dial h scanScope g)
    (hS : sh.h.Target = h.Target ∧ sh.h.Protocol = h.Protocol
      ∧ ∀ x ∈ sh.h.Ports.toList, Recorded dial h scanScope x) :
    SoundGoroutine dial h scanScope (g.step dial sh).1
    ∧ ((g.step dial sh).2.h.Target = h.Target ∧ (g.step dial sh).2.h.Protocol = h.Protocol
      ∧ ∀ x ∈ (g.step dial sh).2.h.Ports.toList, Recorded dial h scanScope x) := by
  rcases g with ⟨p, port, pc⟩
  rcases hG with ⟨hp, hr, hsc, hld⟩
  rcases hS with ⟨hT, hP, hrec⟩
  simp only at hp hr hsc hld
  unfold Goroutine.step
  by_cases hc : sh.crashed = true
  · simp only [hc, if_true]
    exact ⟨⟨hp, hr, hsc, hld⟩, hT, hP, hrec⟩
  · simp only [hc, Bool.false_eq_true, if_false]
    cases pc with
    | entry =>
      refine ⟨⟨?_, hr, ?_, ?_⟩, hT, hP, hrec⟩
      · simp only [scan_port]; exact hp
      · intro _ hst
        simp only [scan_status, hT, hP] at hst
        by_cases ho : isOpen dial h.Protocol h.Target port = true
        · exact ho
        · simp [ho] at hst
      · intro tmp htmp
        simp at htmp
    | scanned =>
      by_cases hs : p.Status = "Closed"
      · simp only [hs, ne_eq, not_true_eq_false, if_false]
        refine ⟨⟨hp, hr, ?_, ?_⟩, by simpa [wgDone] using hT, by simpa [wgDone] using hP,
          by simpa [wgDone] using hrec⟩
        · intro h1; simp at h1
        · intro tmp h1; simp at h1
      · simp only [ne_eq, hs, not_false_eq_true, if_true]
        refine ⟨⟨hp, hr, ?_, ?_⟩, hT, hP, hrec⟩
        · intro h1; simp at h1
        · intro tmp h1
          simp only [Pc.loaded.injEq] at h1
          subst h1
          exact ⟨hsc rfl hs, hrec⟩
    | loaded tmp =>
      have hl := hld tmp rfl
      refine ⟨⟨hp, hr, ?_, ?_⟩, by simpa [wgDone] using hT, by simpa [wgDone] using hP, ?_⟩
      · intro h1; simp at h1
      · intro t h1; simp at h1
      · intro x hx
        simp only [wgDone, Slice.append, Slice.toList, Option.getD_some, List.mem_append,
          List.mem_singleton] at hx
        rcases hx with hx | hx
        · exact hl.2 x hx
        · subst hx
          rw [hp]
          exact Or.inr ⟨hr, hl.1⟩
    | exited => exact ⟨⟨hp, hr, hsc, hld⟩, hT, hP, hrec⟩

/-- Under every interleaving of whole-slice reads and writes (a goroutine that
sees a half-written slice header is outside the model), each port in `h.Ports`
after the scan was there before or is an open port of `1..scanScope`. -/
theorem hostNew_records_only_open_ports (dial : Dial) (sched : List Nat) (h : HostScan)
    (s : ScanResults) (scanScope : Int) (w : World) :
    ∀ x ∈ (HostScan.New dial sched h s scanScope w).h.Ports.toList,
      x ∈ h.Ports.toList
      ∨ (x ∈ loopIndices scanScope ∧ isOpen dial h.Protocol h.Target x = true) := by
  have key := scanShared_preserves dial (SoundGoroutine dial h scanScope)
    (fun sh => sh.h.Target = h.Target ∧ sh.h.Protocol = h.Protocol
      ∧ ∀ x ∈ sh.h.Ports.toList, Recorded dial h scanScope x)
    (fun g sh hG hS => step_sound dial h scanScope g sh hG hS) sched h scanScope w
    (fun i hi => ⟨rfl, hi, fun h1 => by simp [spawn] at h1, fun tmp h1 => by simp [spawn] at h1⟩)
    ⟨rfl, rfl, fun x hx => Or.inl hx⟩
  rw [hostNew_eq]
  by_cases h1 : w.wg + scanScope < 0
  · rw [if_pos h1]
    exact fun x hx => Or.inl hx
  · rw [if_neg h1]
    by_cases h2 : (scanShared dial sched h scanScope w).crashed = true
    · rw [if_pos h2]; exact key.2.2
    · rw [if_neg h2]
      by_cases h3 : (scanShared dial sched h scanScope w).w.wg ≠ 0
      · rw [if_pos h3]; exact key.2.2
      · rw [if_neg h3]; exact key.2.2


/-! ## Goroutines running one at a time, in any order -/

/-- What is owed splits along the list. -/
theorem todo_append (dial : Dial) (h : HostScan) (l1 l2 : List Goroutine) :
    todo dial h (l1 ++ l2) = todo dial h l1 ++ todo dial h l2 := by
  induction l1 with
  | nil => rfl
  | cons g rest ih =>
    show owed dial h g ++ todo dial h (rest ++ l2)
      = owed dial h g ++ todo dial h rest ++ todo dial h l2
    rw [ih, List.append_assoc]

/-- A finished goroutine owes nothing. -/
theorem owed_of_exited (dial : Dial) (h : HostScan) (g : Goroutine) (hg : g.pc = Pc.exited) :
    owed dial h g = [] := by
  simp [owed, Goroutine.live, hg]

/-- A goroutine that is fresh or over, run for three actions, is over; it has
appended what it owed, touched nothing else of `*h`, and brought the count down
by one if it was fresh. -/
theorem run3_serial (dial : Dial) (h : HostScan) (g : Goroutine) (sh : Shared) (k : Int)
    (hk : 0 ≤ k) (hfo : FreshOrOver g) (hc : sh.crashed = false)
    (hwg : sh.w.wg = k + (if g.live then 1 else 0))
    (hT : sh.h.Target = h.Target) (hP : sh.h.Protocol = h.Protocol) :
    (g.run3 dial sh).1.pc = Pc.exited
    ∧ (g.run3 dial sh).2.crashed = false
    ∧ (g.run3 dial sh).2.w.wg = k
    ∧ (g.run3 dial sh).2.h.Target = h.Target
    ∧ (g.run3 dial sh).2.h.Protocol = h.Protocol
    ∧ (g.run3 dial sh).2.h.Ports.toList = sh.h.Ports.toList ++ owed dial h g := by
  have h1 := run3_exited dial g sh k hk hc hwg
  refine ⟨h1.1, h1.2.1, h1.2.2, ?_⟩
  rcases hfo with hf | ho
  · have hlive : g.live = true := by rw [hf]; rfl
    rw [hlive] at hwg
    simp only [if_true] at hwg
    have h2 := finish_spawn dial g.port sh hc (by omega)
    have e : (g.run3 dial sh).2 = Goroutine.finish dial (spawn g.port) sh := by
      rw [← hf]; rfl
    rw [e, h2.1]
    refine ⟨hT, hP, ?_⟩
    simp only [Slice.toList_appendAll, owed, hlive, hT, hP, true_and]
  · have e : g.run3 dial sh = (g, sh) := by
      rcases g with ⟨p, port, pc⟩
      simp only at ho
      subst ho
      by_cases hcr : sh.crashed = true
      · simp [Goroutine.run3, Goroutine.step, hcr]
      · simp [Goroutine.run3, Goroutine.step, hcr]
    rw [e, owed_of_exited dial h g ho]
    exact ⟨hT, hP, by simp⟩

/-- Three scheduled actions of the same goroutine in a row. -/
theorem stepAt_thrice (dial : Dial) (i : Nat) (gs : List Goroutine) (sh : Shared)
    (g : Goroutine) (hi : gs[i]? = some g) :
    stepAt dial i (stepAt dial i (stepAt dial i gs sh).1 (stepAt dial i gs sh).2).1
        (stepAt dial i (stepAt dial i gs sh).1 (stepAt dial i gs sh).2).2
      = (gs.set i (g.run3 dial sh).1, (g.run3 dial sh).2) := by
  have hlt : i < gs.length := (List.getElem?_eq_some.1 hi).1
  have e1 : stepAt dial i gs sh = (gs.set i (g.step dial sh).1, (g.step dial sh).2) := by
    simp only [stepAt, hi]
  have hi1 : (gs.set i (g.step dial sh).1)[i]? = some (g.step dial sh).1 :=
    List.getElem?_set_self hlt
  have e2 : stepAt dial i (gs.set i (g.step dial sh).1) (g.step dial sh).2
      = (gs.set i ((g.step dial sh).1.step dial (g.step dial sh).2).1,
         ((g.step dial sh).1.step dial (g.step dial sh).2).2) := by
    simp only [stepAt, hi1, List.set_set]
  have hi2 : (gs.set i ((g.step dial sh).1.step dial (g.step dial sh).2).1)[i]?
      = some ((g.step dial sh).1.step dial (g.step dial sh).2).1 :=
    List.getElem?_set_self hlt
  rw [e1, e2]
  simp only [stepAt, hi2, List.set_set, Goroutine.run3]

/-- Letting one goroutine run from start to end keeps the serial state. -/
theorem stepAt_thrice_serial (dial : Dial) (h : HostScan) (target : List Int) (i : Nat)
    (gs : List Goroutine) (sh : Shared) (hK : SerialState dial h target gs sh) :
    SerialState dial h target
      (stepAt dial i (stepAt dial i (stepAt dial i gs sh).1 (stepAt dial i gs sh).2).1
        (stepAt dial i (stepAt dial i gs sh).1 (stepAt dial i gs sh).2).2).1
      (stepAt dial i (stepAt dial i (stepAt dial i gs sh).1 (stepAt dial i gs sh).2).1
        (stepAt dial i (stepAt dial i gs sh).1 (stepAt dial i gs sh).2).2).2 := by
  cases hi : gs[i]? with
  | none =>
    have e : stepAt dial i gs sh = (gs, sh) := by simp only [stepAt, hi]
    rw [e, e, e]
    exact hK
  | some g =>
    rw [stepAt_thrice dial i gs sh g hi]
    rcases hK with ⟨hfo, hc, hwg, hT, hP, hperm⟩
    rcases split_at_index gs i g hi with ⟨l1, l2, h1, h2⟩
    have hk : (0 : Int) ≤ pending l1 + pending l2 := by positivity
    have hg : FreshOrOver g := hfo g (by rw [h1]; simp)
    have key := run3_serial dial h g sh (pending l1 + pending l2) hk hg hc
      (by rw [hwg, h1, pending_split]) hT hP
    have hover : (g.run3 dial sh).1.live = false := by simp [Goroutine.live, key.1]
    refine ⟨?_, key.2.1, ?_, key.2.2.2.1, key.2.2.2.2.1, ?_⟩
    · intro x hx
      rw [h2] at hx
      rcases List.mem_append.1 hx with hx | hx
      · exact hfo x (by rw [h1]; exact List.mem_append_left _ hx)
      · rcases List.mem_cons.1 hx with hx | hx
        · rw [hx]; exact Or.inr key.1
        · exact hfo x (by rw [h1]; exact List.mem_append_right _ (List.mem_cons_of_mem _ hx))
    · show (g.run3 dial sh).2.w.wg = pending (gs.set i (g.run3 dial sh).1)
      rw [key.2.2.1, h2, pending_split, hover]
      simp
    · show List.Perm ((g.run3 dial sh).2.h.Ports.toList
        ++ todo dial h (gs.set i (g.run3 dial sh).1)) target
      rw [key.2.2.2.2.2, h2, todo_append]
      rw [h1, todo_append] at hperm
      simp only [todo, owed_of_exited dial h _ key.1, List.nil_append] at hperm ⊢
      refine List.Perm.trans ?_ hperm
      simp only [List.append_assoc]
      refine List.Perm.append_left _ ?_
      rw [← List.append_assoc, ← List.append_assoc]
      exact List.Perm.append_right _ List.perm_append_comm

/-- A serial schedule keeps the serial state. -/
theorem runSched_serial (dial : Dial) (h : HostScan) (target : List Int) (order : List Nat)
    (gs : List Goroutine) (sh : Shared) (hK : SerialState dial h target gs sh) :
    SerialState dial h target (runSched dial (serial order) gs sh).1
      (runSched dial (serial order) gs sh).2 := by
  induction order generalizing gs sh with
  | nil => exact hK
  | cons i rest ih =>
    have h1 := stepAt_thrice_serial dial h target i gs sh hK
    exact ih _ _ h1

/-- From a serial state, running the remaining goroutines one after another
leaves `h.Ports` a rearrangement of the target. -/
theorem drain_serial (dial : Dial) (h : HostScan) (target : List Int) (gs : List Goroutine)
    (sh : Shared) (hK : SerialState dial h target gs sh) :
    List.Perm (drain dial gs sh).h.Ports.toList target := by
  induction gs generalizing sh with
  | nil =>
    rcases hK with ⟨_, _, _, _, _, hperm⟩
    simpa [todo, drain] using hperm
  | cons g rest ih =>
    rcases hK with ⟨hfo, hc, hwg, hT, hP, hperm⟩
    have hsplit := pending_split [] rest g
    simp only [List.nil_append] at hsplit
    have hk : (0 : Int) ≤ pending rest := by positivity
    have key := run3_serial dial h g sh (pending rest) hk (hfo g (List.mem_cons_self _ _)) hc
      (by rw [hwg, hsplit]; simp [pending]) hT hP
    refine ih (g.finish dial sh) ⟨fun x hx => hfo x (List.mem_cons_of_mem _ hx), key.2.1,
      key.2.2.1, key.2.2.2.1, key.2.2.2.2.1, ?_⟩
    show List.Perm ((g.run3 dial sh).2.h.Ports.toList ++ todo dial h rest) target
    rw [key.2.2.2.2.2, List.append_assoc]
    exact hperm


/-- Fresh goroutines are all live. -/
theorem pending_spawn (idx : List Int) : pending (idx.map spawn) = idx.length := by
  unfold pending
  rw [List.countP_eq_length.2]
  · simp
  · intro g hg
    rcases List.mem_map.1 hg with ⟨i, _, rfl⟩
    rfl

/-- Fresh goroutines owe the open ports among theirs. -/
theorem todo_spawn (dial : Dial) (h : HostScan) (idx : List Int) :
    todo dial h (idx.map spawn) = idx.filter (isOpen dial h.Protocol h.Target) := by
  induction idx with
  | nil => rfl
  | cons i rest ih =>
    simp only [List.map_cons, todo, ih, List.filter_cons]
    by_cases ho : isOpen dial h.Protocol h.Target i = true
    · simp [owed, spawn, Goroutine.live, ho]
    · simp [owed, spawn, Goroutine.live, ho]

/-- The loop indices are pairwise distinct. -/
theorem loopIndices_nodup (scanScope : Int) : (loopIndices scanScope).Nodup :=
  (loopIndices_sorted scanScope).imp (fun hab => ne_of_lt hab)

/-- When the goroutines run one at a time, in whatever order, (package wait
group at zero, `0 ≤ scanScope < 2^31`) `HostScan.New` returns and `h.Ports`
holds, besides what it held before, exactly the open ports of `1..scanScope`,
each once. -/
theorem hostNew_serial_records_open_ports (dial : Dial) (order : List Nat) (h : HostScan)
    (s : ScanResults) (scanScope : Int) (w : World) (hw : w.wg = 0) (hn : 0 ≤ scanScope)
    (hb : scanScope < 2147483648) :
    (HostScan.New dial (serial order) h s scanScope w).exit = Exit.returned
    ∧ List.Perm (HostScan.New dial (serial order) h s scanScope w).h.Ports.toList
        (h.Ports.toList ++ (loopIndices scanScope).filter (isOpen dial h.Protocol h.Target))
    ∧ (h.Ports.toList = [] →
        (HostScan.New dial (serial order) h s scanScope w).h.Ports.toList.Nodup
        ∧ ∀ x, x ∈ (HostScan.New dial (serial order) h s scanScope w).h.Ports.toList
            ↔ (x ∈ loopIndices scanScope ∧ isOpen dial h.Protocol h.Target x = true)) := by
  have hret := hostNew_returns dial (serial order) h s scanScope w hw hn hb
  have hinit : SerialState dial h
      (h.Ports.toList ++ (loopIndices scanScope).filter (isOpen dial h.Protocol h.Target))
      ((loopIndices scanScope).map spawn)
      { h := h, w := { w with wg := w.wg + scanScope }, crashed := false } := by
    refine ⟨?_, rfl, ?_, rfl, rfl, ?_⟩
    · intro g hg
      rcases List.mem_map.1 hg with ⟨i, _, rfl⟩
      exact Or.inl rfl
    · show w.wg + scanScope = pending ((loopIndices scanScope).map spawn)
      rw [pending_spawn, loopIndices_length scanScope hn, hw]
      omega
    · show List.Perm (h.Ports.toList ++ todo dial h ((loopIndices scanScope).map spawn)) _
      rw [todo_spawn]
  have h1 := runSched_serial dial h _ order _ _ hinit
  have h2 := drain_serial dial h _ _ _ h1
  have hperm : List.Perm (HostScan.New dial (serial order) h s scanScope w).h.Ports.toList
      (h.Ports.toList ++ (loopIndices scanScope).filter (isOpen dial h.Protocol h.Target)) := by
    rw [hret.2.2]
    exact h2
  refine ⟨hret.1, hperm, ?_⟩
  intro h0
  rw [h0, List.nil_append] at hperm
  refine ⟨hperm.nodup_iff.2 ((loopIndices_nodup scanScope).filter _), fun x => ?_⟩
  rw [hperm.mem_iff, List.mem_filter]


/-! ## `Create` when the goroutines of every host run one at a time -/

/-- The report after `HostScan.New`: `*h` is appended exactly when the call
returns with `h.Ports` non-nil. -/
theorem hostNew_report (dial : Dial) (sched : List Nat) (h : HostScan) (s : ScanResults)
    (scanScope : Int) (w : World)
    (hret : (HostScan.New dial sched h s scanScope w).exit = Exit.returned) :
    (HostScan.New dial sched h s scanScope w).s
      = (if (HostScan.New dial sched h s scanScope w).h.Ports.notNil = true then
          { Results := Slice.append s.Results (HostScan.New dial sched h s scanScope w).h }
        else s) := by
  rw [hostNew_eq] at hret ⊢
  by_cases h1 : w.wg + scanScope < 0
  · rw [if_pos h1] at hret; cases hret
  · rw [if_neg h1] at hret ⊢
    by_cases h2 : (scanShared dial sched h scanScope w).crashed = true
    · rw [if_pos h2] at hret; cases hret
    · rw [if_neg h2] at hret ⊢
      by_cases h3 : (scanShared dial sched h scanScope w).w.wg ≠ 0
      · rw [if_pos h3] at hret; cases hret
      · rw [if_neg h3]

/-- The tail of a list of serial schedules is one, and its head (or the empty
schedule, when there is none) is serial. -/
theorem allSerial_step (scheds : List (List Nat)) (hs : AllSerial scheds) :
    (∃ order, scheds.headD [] = serial order) ∧ AllSerial scheds.tail := by
  cases scheds with
  | nil => exact ⟨⟨[], rfl⟩, fun sc hsc => by simp at hsc⟩
  | cons a rest =>
    exact ⟨hs a (List.mem_cons_self _ _), fun sc hsc => hs sc (List.mem_cons_of_mem _ hsc)⟩

/-- The loop of `Create`, when the goroutines of every host run one at a time:
it ends normally, and has appended one record per target with an open port, in
target order, each with the open ports of its target. -/
theorem createLoop_serial (dial : Dial) (scanScope : Int) (hn : 0 ≤ scanScope)
    (hb : scanScope < 2147483648)
    (hosts : List String) (scheds : List (List Nat)) (s : ScanResults) (w : World)
    (hser : AllSerial scheds) (hw : w.wg = 0) :
    ∃ recs, (createLoop dial scanScope hosts scheds s w).2.2 = Exit.returned
      ∧ (createLoop dial scanScope hosts scheds s w).2.1.wg = 0
      ∧ (createLoop dial scanScope hosts scheds s w).1.Results.toList = s.Results.toList ++ recs
      ∧ List.Forall₂ (RecordOf dial scanScope) recs
          (hosts.filter (fun e => decide (openPorts dial e scanScope ≠ []))) := by
  induction hosts generalizing scheds s w with
  | nil => exact ⟨[], rfl, hw, by simp [createLoop], by simp⟩
  | cons e rest ih =>
    rcases allSerial_step scheds hser with ⟨⟨order, hord⟩, htail⟩
    have hN := hostNew_serial_records_open_ports dial order (HostScan.fresh e) s scanScope w hw
      hn hb
    have hR := hostNew_returns dial (serial order) (HostScan.fresh e) s scanScope w hw hn hb
    have hH := scanShared_host dial (serial order) (HostScan.fresh e) scanScope w
    rw [← hR.2.2] at hH
    have hrep := hostNew_report dial (serial order) (HostScan.fresh e) s scanScope w hR.1
    have hperm : List.Perm
        (HostScan.New dial (serial order) (HostScan.fresh e) s scanScope w).h.Ports.toList
        (openPorts dial e scanScope) := by
      have := hN.2.1
      simpa [HostScan.fresh, Slice.toList, openPorts] using this
    have hnil : ∀ l, (HostScan.New dial (serial order) (HostScan.fresh e) s scanScope w).h.Ports
        = some l → l ≠ [] := by
      rw [hR.2.2]
      exact scanShared_ports_nil_or_nonempty dial (serial order) (HostScan.fresh e) scanScope w
        (by simp [HostScan.fresh])
    have hloop : createLoop dial scanScope (e :: rest) scheds s w
        = createLoop dial scanScope rest scheds.tail
            (HostScan.New dial (serial order) (HostScan.fresh e) s scanScope w).s
            (HostScan.New dial (serial order) (HostScan.fresh e) s scanScope w).w := by
      have hx : (HostScan.New dial (scheds.headD [])
          { Target := e, Protocol := "tcp", Ports := none } s scanScope w).exit = Exit.returned := by
        rw [hord]; exact hR.1
      simp only [createLoop, hx]
      rw [hord]
      rfl
    rcases ih scheds.tail
      (HostScan.New dial (serial order) (HostScan.fresh e) s scanScope w).s
      (HostScan.New dial (serial order) (HostScan.fresh e) s scanScope w).w htail hR.2.1
      with ⟨recs, i1, i2, i3, i4⟩
    rw [hloop]
    cases hp : (HostScan.New dial (serial order) (HostScan.fresh e) s scanScope w).h.Ports with
    | none =>
      have hempty : openPorts dial e scanScope = [] := by
        rw [hp] at hperm
        exact List.Perm.eq_nil (by simpa [Slice.toList] using hperm.symm)
      refine ⟨recs, i1, i2, ?_, ?_⟩
      · rw [i3, hrep, hp]
        simp [Slice.notNil]
      · simpa [List.filter_cons, hempty] using i4
    | some l =>
      have hne : openPorts dial e scanScope ≠ [] := by
        intro h0
        rw [hp, h0] at hperm
        exact hnil l hp (List.Perm.eq_nil (by simpa [Slice.toList] using hperm))
      refine ⟨(HostScan.New dial (serial order) (HostScan.fresh e) s scanScope w).h :: recs,
        i1, i2, ?_, ?_⟩
      · rw [i3, hrep, hp]
        simp [Slice.notNil, Slice.append, Slice.toList]
      · have hf : (e :: rest).filter (fun e => decide (openPorts dial e scanScope ≠ []))
            = e :: rest.filter (fun e => decide (openPorts dial e scanScope ≠ [])) := by
          simp [List.filter_cons, hne]
        rw [hf]
        exact List.Forall₂.cons ⟨hH.1, hH.2, hperm⟩ i4

/-- When the goroutines of every host run one at a time (package wait group at
zero, caller's wait group positive, `0 ≤ scanScope < 2^31`), `Create` returns
and has appended to the report exactly one record `{target, "tcp", open ports}`
per target with an open port in `1..scanScope`, in target order, and none for
the other targets. -/
theorem create_serial_report (dial : Dial) (scheds : List (List Nat)) (s : ScanResults)
    (mwg : Int) (hosts : List String) (scanScope : Int) (w : World) (hser : AllSerial scheds)
    (hw : w.wg = 0) (hm : 0 < mwg) (hn : 0 ≤ scanScope) (hb : scanScope < 2147483648) :
    (ScanResults.Create dial scheds s mwg hosts scanScope w).exit = Exit.returned
    ∧ ∃ recs, (ScanResults.Create dial scheds s mwg hosts scanScope w).s.Results.toList
          = s.Results.toList ++ recs
        ∧ List.Forall₂ (RecordOf dial scanScope) recs
            (hosts.filter (fun e => decide (openPorts dial e scanScope ≠ []))) := by
  rcases createLoop_serial dial scanScope hn hb hosts scheds s w hser hw with
    ⟨recs, h1, _, h3, h4⟩
  have hm1 : ¬ (mwg - 1 < 0) := by omega
  have hc : ScanResults.Create dial scheds s mwg hosts scanScope w
      = { s := (createLoop dial scanScope hosts scheds s w).1, mwg := mwg - 1,
          w := (createLoop dial scanScope hosts scheds s w).2.1, exit := Exit.returned } := by
    simp only [ScanResults.Create, h1, hm1, if_false]
  rw [hc]
  exact ⟨rfl, recs, h3, h4⟩

/-! ## No validation of the configuration: what the entry points do instead -/

/-- `Scan` dials the address of the port over the protocol it was given. -/
theorem scan_probe (dial : Dial) (p : PortScan) (proto addr : String) (port : Int) (w : World) :
    Event.dial proto (addr ++ ":" ++ Itoa port) (Millisecond * 500)
      ∈ (PortScan.Scan dial p proto addr port w).2.trace := by
  cases hd : dial proto (addr ++ ":" ++ Itoa port) (Millisecond * 500) with
  | error e => rw [scan_of_error dial p proto addr port w e hd]; simp
  | ok c => rw [scan_of_ok dial p proto addr port w c hd]; simp

/-- An action changes neither the port a goroutine probes nor what the trace
already holds. -/
theorem step_port_and_trace (dial : Dial) (g : Goroutine) (sh : Shared) :
    (g.step dial sh).1.port = g.port
    ∧ ∀ e ∈ sh.w.trace, e ∈ (g.step dial sh).2.w.trace := by
  refine ⟨?_, ?_⟩
  · rcases g with ⟨p, port, pc⟩
    unfold Goroutine.step
    by_cases hc : sh.crashed = true
    · simp [hc]
    · cases pc with
      | entry => simp [hc]
      | scanned =>
        by_cases hs : p.Status = "Closed"
        · simp [hc, hs]
        · simp [hc, hs]
      | loaded tmp => simp [hc]
      | exited => simp [hc]
  · intro e he
    rcases step_trace dial g sh with ⟨evs, h1, _⟩
    rw [h1]
    exact List.mem_append_left _ he

/-- After an action of a running process, a goroutine is still before its
`Scan` (never, in fact) or its dial is in the trace, provided that held before. -/
theorem step_probed (dial : Dial) (h : HostScan) (g : Goroutine) (sh : Shared)
    (hc : sh.crashed = false) (hT : sh.h.Target = h.Target) (hP : sh.h.Protocol = h.Protocol)
    (hg : g.pc = Pc.entry ∨ probeOf h g.port ∈ sh.w.trace) :
    probeOf h (g.step dial sh).1.port ∈ (g.step dial sh).2.w.trace := by
  rw [(step_port_and_trace dial g sh).1]
  rcases hg with hg | hg
  · rcases g with ⟨p, port, pc⟩
    simp only at hg
    subst hg
    have := scan_probe dial p sh.h.Protocol sh.h.Target port sh.w
    unfold probeOf
    rw [← hP, ← hT]
    simpa [Goroutine.step, hc] using this
  · exact (step_port_and_trace dial g sh).2 _ hg

/-- One scheduled action keeps: the ports of the goroutines, the host, and the
fact that every goroutine past its start has its dial in the trace. -/
theorem stepAt_probed (dial : Dial) (h : HostScan) (i : Nat) (gs : List Goroutine)
    (sh : Shared) (hc : sh.crashed = false) (hT : sh.h.Target = h.Target)
    (hP : sh.h.Protocol = h.Protocol)
    (hpr : ∀ g ∈ gs, g.pc = Pc.entry ∨ probeOf h g.port ∈ sh.w.trace) :
    (stepAt dial i gs sh).1.map Goroutine.port = gs.map Goroutine.port
    ∧ (stepAt dial i gs sh).2.h.Target = h.Target
    ∧ (stepAt dial i gs sh).2.h.Protocol = h.Protocol
    ∧ ∀ g ∈ (stepAt dial i gs sh).1,
        g.pc = Pc.entry ∨ probeOf h g.port ∈ (stepAt dial i gs sh).2.w.trace := by
  unfold stepAt
  cases hi : gs[i]? with
  | none => exact ⟨rfl, hT, hP, hpr⟩
  | some g =>
    rcases split_at_index gs i g hi with ⟨l1, l2, h1, h2⟩
    have hg : g ∈ gs := by rw [h1]; simp
    have hmono := (step_port_and_trace dial g sh).2
    have hhost := step_host dial g sh
    refine ⟨?_, hhost.1.trans hT, hhost.2.1.trans hP, ?_⟩
    · show (gs.set i (g.step dial sh).1).map Goroutine.port = gs.map Goroutine.port
      rw [h2, h1]
      simp [(step_port_and_trace dial g sh).1]
    · intro x hx
      have hx1 : x ∈ gs.set i (g.step dial sh).1 := hx
      rw [h2] at hx1
      show x.pc = Pc.entry ∨ probeOf h x.port ∈ (g.step dial sh).2.w.trace
      rcases List.mem_append.1 hx1 with hx2 | hx2
      · rcases hpr x (by rw [h1]; exact List.mem_append_left _ hx2) with h3 | h3
        · exact Or.inl h3
        · exact Or.inr (hmono _ h3)
      · rcases List.mem_cons.1 hx2 with hx3 | hx3
        · rw [hx3]
          exact Or.inr (step_probed dial h g sh hc hT hP (hpr g hg))
        · rcases hpr x (by rw [h1]; exact List.mem_append_right _ (List.mem_cons_of_mem _ hx3))
            with h3 | h3
          · exact Or.inl h3
          · exact Or.inr (hmono _ h3)

/-- A whole schedule keeps the same, together with the count of the wait group. -/
theorem runSched_probed (dial : Dial) (h : HostScan) (sched : List Nat) (gs : List Goroutine)
    (sh : Shared) (w0 : Int) (hw0 : 0 ≤ w0) (hc : sh.crashed = false)
    (hwg : sh.w.wg = w0 + pending gs) (hT : sh.h.Target = h.Target)
    (hP : sh.h.Protocol = h.Protocol)
    (hpr : ∀ g ∈ gs, g.pc = Pc.entry ∨ probeOf h g.port ∈ sh.w.trace) :
    (runSched dial sched gs sh).1.map Goroutine.port = gs.map Goroutine.port
    ∧ (runSched dial sched gs sh).2.h.Target = h.Target
    ∧ (runSched dial sched gs sh).2.h.Protocol = h.Protocol
    ∧ ∀ g ∈ (runSched dial sched gs sh).1,
        g.pc = Pc.entry ∨ probeOf h g.port ∈ (runSched dial sched gs sh).2.w.trace := by
  induction sched generalizing gs sh with
  | nil => exact ⟨rfl, hT, hP, hpr⟩
  | cons i rest ih =>
    have h1 := stepAt_count dial i gs sh w0 hw0 hc hwg
    have h2 := stepAt_probed dial h i gs sh hc hT hP hpr
    have h3 := ih (stepAt dial i gs sh).1 (stepAt dial i gs sh).2 h1.1 h1.2 h2.2.1 h2.2.2.1
      h2.2.2.2
    exact ⟨h3.1.trans h2.1, h3.2⟩

/-- Running goroutines to their ends never removes anything from the trace. -/
theorem drain_trace_mono (dial : Dial) (gs : List Goroutine) (sh : Shared) (e : Event)
    (he : e ∈ sh.w.trace) : e ∈ (drain dial gs sh).w.trace :=
  drain_preserves dial (fun _ => True) (fun x => e ∈ x.w.trace)
    (fun g x _ hx => ⟨trivial, (step_port_and_trace dial g x).2 e hx⟩) gs sh
    (fun _ _ => trivial) he

/-- A goroutine run to its end has dialled. -/
theorem finish_probed (dial : Dial) (h : HostScan) (g : Goroutine) (sh : Shared)
    (hc : sh.crashed = false) (hT : sh.h.Target = h.Target) (hP : sh.h.Protocol = h.Protocol)
    (hg : g.pc = Pc.entry ∨ probeOf h g.port ∈ sh.w.trace) :
    probeOf h g.port ∈ (g.finish dial sh).w.trace
    ∧ ∀ e ∈ sh.w.trace, e ∈ (g.finish dial sh).w.trace := by
  have h1 := step_probed dial h g sh hc hT hP hg
  rw [(step_port_and_trace dial g sh).1] at h1
  have m1 := (step_port_and_trace dial g sh).2
  have m2 := (step_port_and_trace dial (g.step dial sh).1 (g.step dial sh).2).2
  have m3 := (step_port_and_trace dial
    ((g.step dial sh).1.step dial (g.step dial sh).2).1
    ((g.step dial sh).1.step dial (g.step dial sh).2).2).2
  exact ⟨m3 _ (m2 _ h1), fun e he => m3 _ (m2 _ (m1 _ he))⟩

/-- When the remaining goroutines have run to their ends, each has dialled. -/
theorem drain_probed (dial : Dial) (h : HostScan) (gs : List Goroutine) (sh : Shared)
    (w0 : Int) (hw0 : 0 ≤ w0) (hc : sh.crashed = false) (hwg : sh.w.wg = w0 + pending gs)
    (hT : sh.h.Target = h.Target) (hP : sh.h.Protocol = h.Protocol)
    (hpr : ∀ g ∈ gs, g.pc = Pc.entry ∨ probeOf h g.port ∈ sh.w.trace) :
    ∀ g ∈ gs, probeOf h g.port ∈ (drain dial gs sh).w.trace := by
  induction gs generalizing sh with
  | nil => intro g hg; simp at hg
  | cons g rest ih =>
    have hsplit := pending_split [] rest g
    simp only [List.nil_append] at hsplit
    have hk : (0 : Int) ≤ w0 + pending rest := by positivity
    have key := run3_exited dial g sh (w0 + pending rest) hk hc
      (by rw [hwg, hsplit]; simp [pending]; ring)
    have hf := finish_probed dial h g sh hc hT hP (hpr g (List.mem_cons_self _ _))
    have hhost : (g.finish dial sh).h.Target = h.Target
        ∧ (g.finish dial sh).h.Protocol = h.Protocol :=
      finish_preserves dial (fun _ => True)
        (fun x => x.h.Target = h.Target ∧ x.h.Protocol = h.Protocol)
        (fun g1 x _ hx => ⟨trivial, (step_host dial g1 x).1.trans hx.1,
          (step_host dial g1 x).2.1.trans hx.2⟩) g sh trivial ⟨hT, hP⟩
    have hrest := ih (g.finish dial sh) key.2.1 key.2.2 hhost.1 hhost.2
      (fun x hx => (hpr x (List.mem_cons_of_mem _ hx)).imp id (hf.2 _))
    intro x hx
    rcases List.mem_cons.1 hx with hx1 | hx1
    · rw [hx1]
      exact drain_trace_mono dial rest _ _ hf.1
    · exact hrest x hx1

/-- Under every interleaving of the model (package wait group at zero,
`0 ≤ scanScope < 2^31`), `HostScan.New` returns having dialled every port of
`1..scanScope` on `h.Target`, over `h.Protocol` whatever it is, with the
500 ms timeout. -/
theorem hostNew_probes_every_port (dial : Dial) (sched : List Nat) (h : HostScan)
    (s : ScanResults) (scanScope : Int) (w : World) (hw : w.wg = 0) (hn : 0 ≤ scanScope)
    (hb : scanScope < 2147483648) :
    (HostScan.New dial sched h s scanScope w).exit = Exit.returned
    ∧ ∀ i ∈ loopIndices scanScope,
        probeOf h i ∈ (HostScan.New dial sched h s scanScope w).w.trace := by
  have hret := hostNew_returns dial sched h s scanScope w hw hn hb
  refine ⟨hret.1, ?_⟩
  have hpend : ({ h := h, w := { w with wg := w.wg + scanScope }, crashed := false } : Shared).w.wg
      = 0 + pending ((loopIndices scanScope).map spawn) := by
    show w.wg + scanScope = 0 + (pending ((loopIndices scanScope).map spawn) : Int)
    rw [pending_spawn, loopIndices_length scanScope hn, hw]
  have hfresh : ∀ g ∈ (loopIndices scanScope).map spawn,
      g.pc = Pc.entry ∨ probeOf h g.port
        ∈ ({ h := h, w := { w with wg := w.wg + scanScope }, crashed := false } : Shared).w.trace := by
    intro g hg
    rcases List.mem_map.1 hg with ⟨i, _, rfl⟩
    exact Or.inl rfl
  have c1 := runSched_count dial sched _ _ 0 (le_refl 0) rfl hpend
  have p1 := runSched_probed dial h sched _ _ 0 (le_refl 0) rfl hpend rfl rfl hfresh
  have d1 := drain_probed dial h _ _ 0 (le_refl 0) c1.1 c1.2 p1.2.1 p1.2.2.1 p1.2.2.2
  have hworld : (HostScan.New dial sched h s scanScope w).w
      = (scanShared dial sched h scanScope w).w := by
    have e1 : ¬ (w.wg + scanScope < 0) := by omega
    have hx := hret.1
    rw [hostNew_eq, if_neg e1] at hx ⊢
    by_cases h2 : (scanShared dial sched h scanScope w).crashed = true
    · rw [if_pos h2] at hx; cases hx
    · rw [if_neg h2] at hx ⊢
      by_cases h3 : (scanShared dial sched h scanScope w).w.wg ≠ 0
      · rw [if_pos h3] at hx; cases hx
      · rw [if_neg h3]
  intro i hi
  rw [hworld]
  have hmem : i ∈ (runSched dial sched ((loopIndices scanScope).map spawn)
      { h := h, w := { w with wg := w.wg + scanScope }, crashed := false }).1.map
        Goroutine.port := by
    rw [p1.1]
    simp only [List.map_map, List.mem_map]
    exact ⟨i, hi, rfl⟩
  rcases List.mem_map.1 hmem with ⟨g, hg, hgi⟩
  have := d1 g hg
  rw [hgi] at this
  exact this

/-- C6, amended: the scan entry points validate nothing and report no
configuration error.  With the package wait group at zero and the caller's wait
group positive (both within the 32-bit range of the counter):
when the target list is empty or `scanScope = 0`, `Create` returns normally,
with the report and the world (so the trace: no probe) unchanged;
when `-2^31 ≤ scanScope < 0` and there is a target, `Create` panics in `wg.Add`
before any probe, the report unchanged;
and the protocol is not checked: for `0 ≤ scanScope < 2^31` and a protocol
`h.Protocol` on which the transport fails every dial, `HostScan.New` returns
normally under every interleaving, having dialled every port of `1..scanScope`
over `h.Protocol`, with `*h` as it was and no dial over another protocol. -/
theorem create_without_validation (dial : Dial) (scheds : List (List Nat)) (s : ScanResults)
    (mwg : Int) (hosts : List String) (scanScope : Int) (w : World) (sched : List Nat)
    (h : HostScan) (hw : w.wg = 0) (hm : 0 < mwg) (_hmb : mwg < 2147483648) :
    ((hosts = [] ∨ scanScope = 0) →
      (ScanResults.Create dial scheds s mwg hosts scanScope w).exit = Exit.returned
      ∧ (ScanResults.Create dial scheds s mwg hosts scanScope w).s = s
      ∧ (ScanResults.Create dial scheds s mwg hosts scanScope w).w = w)
    ∧ (-2147483648 ≤ scanScope → scanScope < 0 → hosts ≠ [] →
      (ScanResults.Create dial scheds s mwg hosts scanScope w).exit
          = Exit.panicked negativeCounter
      ∧ (ScanResults.Create dial scheds s mwg hosts scanScope w).s = s
      ∧ (ScanResults.Create dial scheds s mwg hosts scanScope w).w.trace = w.trace)
    ∧ (0 ≤ scanScope → scanScope < 2147483648 →
      (∀ a t, dialOk (dial h.Protocol a t) = false) →
      (HostScan.New dial sched h s scanScope w).exit = Exit.returned
      ∧ (∀ i ∈ loopIndices scanScope,
          Event.dial h.Protocol (h.Target ++ ":" ++ Itoa i) (Millisecond * 500)
            ∈ (HostScan.New dial sched h s scanScope w).w.trace)
      ∧ (HostScan.New dial sched h s scanScope w).h = h
      ∧ ∃ evs, (HostScan.New dial sched h s scanScope w).w.trace = w.trace ++ evs
          ∧ ∀ e ∈ evs, ∀ pr a t, e = Event.dial pr a t → pr = h.Protocol) := by
  have hm1 : ¬ (mwg - 1 < 0) := by omega
  refine ⟨?_, ?_, ?_⟩
  · intro hcfg
    have hloop : createLoop dial scanScope hosts scheds s w = (s, w, Exit.returned) := by
      rcases hcfg with h1 | h1
      · subst h1; rfl
      · subst h1; exact createLoop_zero dial hosts scheds s w hw
    simp [ScanResults.Create, hloop, hm1]
  · intro _ hneg hne
    cases hosts with
    | nil => exact absurd rfl hne
    | cons e rest =>
      have h1 : w.wg + scanScope < 0 := by omega
      have hloop : createLoop dial scanScope (e :: rest) scheds s w
          = (s, { w with wg := w.wg + scanScope }, Exit.panicked negativeCounter) := by
        unfold createLoop
        rw [hostNew_eq, if_pos h1]
      simp [ScanResults.Create, hloop, hm1]
  · intro hn hb hbad
    have hprobe := hostNew_probes_every_port dial sched h s scanScope w hw hn hb
    have hsame : (HostScan.New dial sched h s scanScope w).h = h := by
      rw [(hostNew_returns dial sched h s scanScope w hw hn hb).2.2]
      exact scanShared_all_closed dial sched h scanScope w (fun i _ => hbad _ _)
    refine ⟨hprobe.1, hprobe.2, hsame, ?_⟩
    rw [hostNew_eq]
    have h1 : ¬ (w.wg + scanScope < 0) := by omega
    rw [if_neg h1]
    have ht := scanShared_trace dial sched h scanScope w
    by_cases h2 : (scanShared dial sched h scanScope w).crashed = true
    · rw [if_pos h2]; exact ht
    · rw [if_neg h2]
      by_cases h3 : (scanShared dial sched h scanScope w).w.wg ≠ 0
      · rw [if_pos h3]; exact ht
      · rw [if_neg h3]; exact ht

/-- C6, amended, at concrete calls: `Create` on two targets with `scanScope = 0`
returns with the report as it was, and `HostScan.New` over the protocol "bogus"
with `scanScope = 2` and the second goroutine running first dials port 2 over
"bogus". -/
theorem create_without_validation_witness :
    World.init.wg = 0 ∧ (0 : Int) < 1 ∧ (1 : Int) < 2147483648
    ∧ (ScanResults.Create allClosed [] ScanResults.empty 1 ["a", "b"] 0 World.init).exit
        = Exit.returned
    ∧ (ScanResults.Create allClosed [] ScanResults.empty 1 ["a", "b"] 0 World.init).s
        = ScanResults.empty
    ∧ Event.dial "bogus" "h:2" 500000000
        ∈ (HostScan.New allClosed [1, 0] { Target := "h", Protocol := "bogus", Ports := none }
            ScanResults.empty 2 World.init).w.trace :=
  ⟨rfl, by decide, by decide,
    ((create_without_validation allClosed [] ScanResults.empty 1 ["a", "b"] 0 World.init []
      (HostScan.fresh "a") rfl (by decide) (by decide)).1 (Or.inr rfl)).1,
    ((create_without_validation allClosed [] ScanResults.empty 1 ["a", "b"] 0 World.init []
      (HostScan.fresh "a") rfl (by decide) (by decide)).1 (Or.inr rfl)).2.1,
    ((create_without_validation allClosed [] ScanResults.empty 1 [] 2 World.init [1, 0]
      { Target := "h", Protocol := "bogus", Ports := none } rfl (by decide) (by decide)).2.2
      (by decide) (by decide) (fun _ _ => rfl)).2.1 2 (by decide)⟩

end Sysprobe
